import Mathlib

/-
Verification development for the Mark Six telegram-bot repository.

Embedded components (shallow embedding):
- the `calculator` tool of `agent_setup.py` (expression mode and structured
  operands mode), with Python floats idealized as exact rationals (`Rat`);
- the `MarkSixResult` pydantic model of `models.py` (validate-on-construct).

The expression branch of `calculator` delegates to the third-party
`simpleeval` library, whose code is not part of this repository; that
evaluator is modelled here from the spec's restricted arithmetic grammar
(numbers, `+ - * / **`, parentheses, unary minus), see `simple_eval` below.
-/

namespace MarkSix

attribute [local semireducible] Rat.add Rat.sub Rat.mul Rat.inv

/-- Tokens of the restricted arithmetic grammar.  `**` is recognized by the
parser as two adjacent `star` tokens, mirroring the spec's operator set. -/
inductive Tok where
  | num (q : Rat)
  | plus
  | minus
  | star
  | slash
  | lparen
  | rparen
deriving DecidableEq, Repr

/-- State of a numeric literal being lexed: integer part accumulated so far,
whether a decimal dot was seen, fraction numerator and denominator, and
whether at least one digit was seen (a lone `.` is not a number). -/
structure NumAcc where
  ip : Nat
  sawDot : Bool
  fn : Nat
  fd : Nat
  sawDigit : Bool
deriving DecidableEq, Repr

/-- Rational value of a lexed numeric literal. -/
def NumAcc.val (a : NumAcc) : Rat := (a.ip : Rat) + (a.fn : Rat) / (a.fd : Rat)

/-- Initial lexing state for a numeric literal. -/
def startAcc : NumAcc := ⟨0, false, 0, 1, false⟩

/-- Feed one decimal digit into the literal being lexed. -/
def NumAcc.pushDigit (a : NumAcc) (d : Nat) : NumAcc :=
  if a.sawDot then { a with fn := a.fn * 10 + d, fd := a.fd * 10, sawDigit := true }
  else { a with ip := a.ip * 10 + d, sawDigit := true }

/-- Emit the pending numeric literal (if any) in front of the remaining
token stream; a pending state with no digit is a lexical error. -/
def withFlush (acc : Option NumAcc) (rest : Option (List Tok)) : Option (List Tok) :=
  match acc with
  | none => rest
  | some a => if a.sawDigit then rest.map (fun ts => Tok.num a.val :: ts) else none

/-- Lexer for the restricted arithmetic grammar: decimal literals, the
operator characters `+ - * / ( )`, and whitespace; any other character is a
lexical error.  `acc` is the numeric literal currently being lexed. -/
def tokLoop : List Char → Option NumAcc → Option (List Tok)
  | [], acc => withFlush acc (some [])
  | c :: cs, acc =>
    if c.isDigit then
      tokLoop cs (some ((acc.getD startAcc).pushDigit (c.toNat - 48)))
    else if c = '.' then
      match acc with
      | none => tokLoop cs (some { startAcc with sawDot := true })
      | some a => if a.sawDot then none else tokLoop cs (some { a with sawDot := true })
    else if c.isWhitespace then withFlush acc (tokLoop cs none)
    else if c = '+' then withFlush acc ((tokLoop cs none).map (fun ts => Tok.plus :: ts))
    else if c = '-' then withFlush acc ((tokLoop cs none).map (fun ts => Tok.minus :: ts))
    else if c = '*' then withFlush acc ((tokLoop cs none).map (fun ts => Tok.star :: ts))
    else if c = '/' then withFlush acc ((tokLoop cs none).map (fun ts => Tok.slash :: ts))
    else if c = '(' then withFlush acc ((tokLoop cs none).map (fun ts => Tok.lparen :: ts))
    else if c = ')' then withFlush acc ((tokLoop cs none).map (fun ts => Tok.rparen :: ts))
    else none

/-- Tokenize an expression text. -/
def tokenize (cs : List Char) : Option (List Tok) := tokLoop cs none

/-- Abstract syntax of the restricted arithmetic grammar. -/
inductive Expr where
  | num (q : Rat)
  | neg (a : Expr)
  | add (a b : Expr)
  | sub (a b : Expr)
  | mul (a b : Expr)
  | div (a b : Expr)
  | pow (a b : Expr)
deriving DecidableEq, Repr

mutual

/-- Parse an expression: a term followed by `+`/`-` continuations. -/
def parseE : Nat → List Tok → Option (Expr × List Tok)
  | 0, _ => none
  | f + 1, ts =>
    match parseT f ts with
    | some (e, r) => loopE f e r
    | none => none

/-- Left-associative loop for `+` and `-`. -/
def loopE : Nat → Expr → List Tok → Option (Expr × List Tok)
  | 0, _, _ => none
  | f + 1, e, ts =>
    match ts with
    | Tok.plus :: r =>
      match parseT f r with
      | some (e2, r2) => loopE f (Expr.add e e2) r2
      | none => none
    | Tok.minus :: r =>
      match parseT f r with
      | some (e2, r2) => loopE f (Expr.sub e e2) r2
      | none => none
    | _ => some (e, ts)

/-- Parse a term: a unary expression followed by `*`/`/` continuations. -/
def parseT : Nat → List Tok → Option (Expr × List Tok)
  | 0, _ => none
  | f + 1, ts =>
    match parseU f ts with
    | some (e, r) => loopT f e r
    | none => none

/-- Left-associative loop for `*` and `/`. -/
def loopT : Nat → Expr → List Tok → Option (Expr × List Tok)
  | 0, _, _ => none
  | f + 1, e, ts =>
    match ts with
    | Tok.star :: r =>
      match parseU f r with
      | some (e2, r2) => loopT f (Expr.mul e e2) r2
      | none => none
    | Tok.slash :: r =>
      match parseU f r with
      | some (e2, r2) => loopT f (Expr.div e e2) r2
      | none => none
    | _ => some (e, ts)

/-- Parse a unary expression: an optional unary minus over a power. -/
def parseU : Nat → List Tok → Option (Expr × List Tok)
  | 0, _ => none
  | f + 1, ts =>
    match ts with
    | Tok.minus :: r =>
      match parseU f r with
      | some (e, r2) => some (Expr.neg e, r2)
      | none => none
    | _ => parsePow f ts

/-- Parse a power: an atom, optionally raised via `**` (two `star` tokens)
to a unary exponent; `**` is right-associative and binds tighter than the
unary minus of its base, as in Python. -/
def parsePow : Nat → List Tok → Option (Expr × List Tok)
  | 0, _ => none
  | f + 1, ts =>
    match parseAtom f ts with
    | some (a, r) =>
      match r with
      | Tok.star :: Tok.star :: r2 =>
        match parseU f r2 with
        | some (b, r3) => some (Expr.pow a b, r3)
        | none => none
      | _ => some (a, r)
    | none => none

/-- Parse an atom: a numeric literal or a parenthesized expression. -/
def parseAtom : Nat → List Tok → Option (Expr × List Tok)
  | 0, _ => none
  | f + 1, ts =>
    match ts with
    | Tok.num q :: r => some (Expr.num q, r)
    | Tok.lparen :: r =>
      match parseE f r with
      | some (e, r2) =>
        match r2 with
        | Tok.rparen :: r3 => some (e, r3)
        | _ => none
      | none => none
    | _ => none

end

/-- Parse a complete token stream as one expression (no trailing tokens). -/
def parseExpr (ts : List Tok) : Option Expr :=
  match parseE (10 * ts.length + 10) ts with
  | some (e, []) => some e
  | _ => none

/-- Standard arithmetic semantics of the grammar over exact rationals.
Division by zero is the distinct divide-by-zero error; exponentiation is
modelled for integer exponents (the spec's examples use only these). -/
def evalAst : Expr → Except String Rat
  | Expr.num q => Except.ok q
  | Expr.neg a => (evalAst a).map (fun x => -x)
  | Expr.add a b => do
    let x ← evalAst a
    let y ← evalAst b
    pure (x + y)
  | Expr.sub a b => do
    let x ← evalAst a
    let y ← evalAst b
    pure (x - y)
  | Expr.mul a b => do
    let x ← evalAst a
    let y ← evalAst b
    pure (x * y)
  | Expr.div a b => do
    let x ← evalAst a
    let y ← evalAst b
    if y = 0 then Except.error "division by zero" else pure (x / y)
  | Expr.pow a b => do
    let x ← evalAst a
    let y ← evalAst b
    if y.den = 1 then
      if x = 0 ∧ y.num < 0 then Except.error "0.0 cannot be raised to a negative power"
      else pure (x ^ y.num)
    else Except.error "non-integer exponents are outside the modelled grammar"

/-- Modelled from the spec: the `simpleeval` library's `simple_eval`, which
`agent_setup.py` delegates to, is not part of this repository.  Following
spec section 4.1, it evaluates the restricted arithmetic grammar (integer
and decimal literals, `+ - * / **`, parentheses, unary minus) and rejects
every other input with a parser error. -/
def simple_eval (cs : List Char) : Except String Rat :=
  match tokenize cs with
  | none => Except.error "invalid syntax"
  | some ts =>
    match parseExpr ts with
    | none => Except.error "invalid syntax"
    | some e => evalAst e

/-- The alternate-glyph substitution performed by `calculator`:
`expression.replace('×', '*').replace('÷', '/')`. -/
def replaceChar (c : Char) : Char :=
  if c = '×' then '*' else if c = '÷' then '/' else c

/-- `str.replace` for the two single-character patterns used by the code. -/
def pyReplace (cs : List Char) : List Char := cs.map replaceChar

/-- Python `str.strip()`: remove leading and trailing whitespace. -/
def pyStrip (cs : List Char) : List Char :=
  ((cs.dropWhile Char.isWhitespace).reverse.dropWhile Char.isWhitespace).reverse

/-- The expression branch of `calculator` in `agent_setup.py`: replace the
alternate glyphs, strip, evaluate with `simple_eval`, and wrap any failure
in the `Cannot evaluate expression` message built from the glyph-replaced
text and the underlying error. -/
def evaluate (s : String) : Except String Rat :=
  let e2 := pyReplace s.data
  match simple_eval (pyStrip e2) with
  | Except.ok v => Except.ok v
  | Except.error m =>
    Except.error ("Cannot evaluate expression: " ++ String.mk e2 ++ ". Error: " ++ m)

/-- The missing-arguments error message of `calculator`. -/
def missingArgsMsg : String := "Must provide either expression or (number1, number2, operation)"

/-- Python `str.lower()` on one character (the operator strings consist of
ASCII letters and the operator symbols, which this covers). -/
def pyLowerChar (c : Char) : Char :=
  if 'A' ≤ c ∧ c ≤ 'Z' then Char.ofNat (c.toNat + 32) else c

/-- `operation.lower().strip()`, the operator normalization of `calculator`. -/
def normOp (operation : String) : String :=
  String.mk (pyStrip (operation.data.map pyLowerChar))

/-- The structured-operands branch of `calculator`: normalize the operator
by lower-casing and trimming, then match it against the synonym table. -/
def calculatorStructured (number1 number2 : Rat) (operation : String) : Except String Rat :=
  let op := normOp operation
  if op = "add" ∨ op = "+" then Except.ok (number1 + number2)
  else if op = "subtract" ∨ op = "-" then Except.ok (number1 - number2)
  else if op = "multiply" ∨ op = "*" ∨ op = "×" ∨ op = "x" then Except.ok (number1 * number2)
  else if op = "divide" ∨ op = "/" ∨ op = "÷" then
    if number2 = 0 then Except.error "Cannot divide by zero"
    else Except.ok (number1 / number2)
  else Except.error ("Unsupported operation: " ++ op)

/-- The part of `calculator` reached when no (nonempty) expression is given:
require all three of `number1`, `number2`, `operation`, else raise the
missing-arguments error. -/
def calculatorOperands (number1 number2 : Option Rat) (operation : Option String) :
    Except String Rat :=
  match number1, number2, operation with
  | some a, some b, some op => calculatorStructured a b op
  | _, _, _ => Except.error missingArgsMsg

/-- The `calculator` tool of `agent_setup.py`.  `if expression:` is Python
string truthiness, so the expression branch is taken exactly when
`expression` is present and nonempty. -/
def calculator (number1 number2 : Option Rat) (operation expression : Option String) :
    Except String Rat :=
  match expression with
  | some e => if e = "" then calculatorOperands number1 number2 operation else evaluate e
  | none => calculatorOperands number1 number2 operation

instance {ε α : Type} [DecidableEq ε] [DecidableEq α] : DecidableEq (Except ε α) := fun x y =>
  match x, y with
  | Except.ok a, Except.ok b => decidable_of_iff (a = b) (by simp)
  | Except.ok _, Except.error _ => isFalse (by simp)
  | Except.error _, Except.ok _ => isFalse (by simp)
  | Except.error e, Except.error f => decidable_of_iff (e = f) (by simp)

/-- A calendar date (the `draw_date` field carries no validation). -/
structure PyDate where
  year : Int
  month : Int
  day : Int
deriving DecidableEq, Repr

/-- The validation failure modes of `MarkSixResult`, in the order pydantic
encounters them: field constraints in declaration order, the `numbers`
field validator (range check, then uniqueness check), the `bonus_number`
range constraint, and finally the after-model validator. -/
inductive MSError where
  | drawNumberNotPositive
  | numbersWrongLength
  | numbersOutOfRange
  | numbersNotUnique
  | bonusOutOfRange
  | bonusInNumbers
deriving DecidableEq, Repr

/-- The `MarkSixResult` record of `models.py` (a pydantic `BaseModel`). -/
structure MarkSixResult where
  draw_number : Int
  draw_date : PyDate
  numbers : List Int
  bonus_number : Int
deriving DecidableEq, Repr

/-- The `validate_numbers` field validator of `models.py`: range check,
uniqueness check via `len(set(v)) != 6`, then return the sorted list. -/
def validate_numbers (v : List Int) : Except MSError (List Int) :=
  if v.all (fun n => decide (1 ≤ n ∧ n ≤ 49)) then
    if v.dedup.length = 6 then Except.ok (v.insertionSort (· ≤ ·))
    else Except.error MSError.numbersNotUnique
  else Except.error MSError.numbersOutOfRange

/-- Construction of a `MarkSixResult`, following pydantic validation order:
`draw_number` must be a positive integer (`gt=0`), `numbers` must have
exactly 6 elements (`min_length=6, max_length=6`) and pass
`validate_numbers`, `bonus_number` must lie in `[1,49]` (`ge=1, le=49`),
and the after-model validator rejects a bonus number occurring among the
main numbers.  A failure yields only the error, never an instance. -/
def construct (draw_number : Int) (draw_date : PyDate) (numbers : List Int)
    (bonus_number : Int) : Except MSError MarkSixResult :=
  if 0 < draw_number then
    if numbers.length = 6 then
      (validate_numbers numbers).bind (fun sortedNumbers =>
        if 1 ≤ bonus_number ∧ bonus_number ≤ 49 then
          if bonus_number ∈ sortedNumbers then Except.error MSError.bonusInNumbers
          else Except.ok ⟨draw_number, draw_date, sortedNumbers, bonus_number⟩
        else Except.error MSError.bonusOutOfRange)
    else Except.error MSError.numbersWrongLength
  else Except.error MSError.drawNumberNotPositive

/-- Modelled from the spec: pydantic attribute assignment.  `models.py`
declares neither `frozen=True` nor `validate_assignment=True` on
`MarkSixResult`, so (per pydantic defaults) assigning to a field of a
constructed instance replaces the field value and runs no validator. -/
def set_draw_number (r : MarkSixResult) (v : Int) : MarkSixResult :=
  { r with draw_number := v }

/-- Printable expressions of the restricted grammar: every shape the spec's
grammar generates, with natural-number literals (decimal literals without a
fractional part).  Used to quantify over "every syntactically valid
arithmetic expression text" by printing and re-evaluating. -/
inductive PExpr where
  | num (n : Nat)
  | neg (a : PExpr)
  | add (a b : PExpr)
  | sub (a b : PExpr)
  | mul (a b : PExpr)
  | div (a b : PExpr)
  | pow (a b : PExpr)
deriving DecidableEq, Repr

/-- The abstract syntax tree denoted by a printable expression. -/
def PExpr.embed : PExpr → Expr
  | PExpr.num n => Expr.num n
  | PExpr.neg a => Expr.neg a.embed
  | PExpr.add a b => Expr.add a.embed b.embed
  | PExpr.sub a b => Expr.sub a.embed b.embed
  | PExpr.mul a b => Expr.mul a.embed b.embed
  | PExpr.div a b => Expr.div a.embed b.embed
  | PExpr.pow a b => Expr.pow a.embed b.embed

/-- The decimal digit characters. -/
def digChar : Nat → Char
  | 0 => '0'
  | 1 => '1'
  | 2 => '2'
  | 3 => '3'
  | 4 => '4'
  | 5 => '5'
  | 6 => '6'
  | 7 => '7'
  | 8 => '8'
  | _ => '9'

/-- Decimal digits of a natural number, most significant first. -/
def natDigs (n : Nat) : List Char :=
  if h : n < 10 then [digChar n]
  else natDigs (n / 10) ++ [digChar (n % 10)]
decreasing_by exact Nat.div_lt_self (by omega) (by omega)

/-- Token form of a printable expression (composites fully parenthesized,
`**` as two `star` tokens). -/
def printToks : PExpr → List Tok
  | PExpr.num n => [Tok.num (n : Rat)]
  | PExpr.neg a => Tok.lparen :: Tok.minus :: (printToks a ++ [Tok.rparen])
  | PExpr.add a b => Tok.lparen :: (printToks a ++ Tok.plus :: (printToks b ++ [Tok.rparen]))
  | PExpr.sub a b => Tok.lparen :: (printToks a ++ Tok.minus :: (printToks b ++ [Tok.rparen]))
  | PExpr.mul a b => Tok.lparen :: (printToks a ++ Tok.star :: (printToks b ++ [Tok.rparen]))
  | PExpr.div a b => Tok.lparen :: (printToks a ++ Tok.slash :: (printToks b ++ [Tok.rparen]))
  | PExpr.pow a b =>
    Tok.lparen :: (printToks a ++ Tok.star :: Tok.star :: (printToks b ++ [Tok.rparen]))

/-- Expression text of a printable expression. -/
def printChars : PExpr → List Char
  | PExpr.num n => natDigs n
  | PExpr.neg a => '(' :: '-' :: (printChars a ++ [')'])
  | PExpr.add a b => '(' :: (printChars a ++ '+' :: (printChars b ++ [')']))
  | PExpr.sub a b => '(' :: (printChars a ++ '-' :: (printChars b ++ [')']))
  | PExpr.mul a b => '(' :: (printChars a ++ '*' :: (printChars b ++ [')']))
  | PExpr.div a b => '(' :: (printChars a ++ '/' :: (printChars b ++ [')']))
  | PExpr.pow a b => '(' :: (printChars a ++ '*' :: '*' :: (printChars b ++ [')']))

/-- Expression text of a printable expression, as a string. -/
def printStr (p : PExpr) : String := String.mk (printChars p)

/-- Value of a decimal digit string, accumulated left to right from `i`
(the same accumulation the lexer performs on integer parts). -/
def dval (i : Nat) (l : List Char) : Nat :=
  l.foldl (fun a c => a * 10 + (c.toNat - 48)) i

/-- The characters the lexer accepts: digits, the decimal dot, whitespace,
and the operator and parenthesis characters. -/
def allowedChar (c : Char) : Bool :=
  c.isDigit || c = '.' || c.isWhitespace ||
    c = '+' || c = '-' || c = '*' || c = '/' || c = '(' || c = ')'

/-- The full alphabet of expression mode: the lexer's characters plus the
alternate glyphs `×` and `÷` that `calculator` rewrites before evaluating.
Identifiers, attribute accesses, assignments, and name lookups all contain
a character outside this alphabet. -/
def exprAlphabet (c : Char) : Bool :=
  allowedChar c || c = '×' || c = '÷'

/-- Characters the printer emits: digits and the operator characters. -/
def goodChar (c : Char) : Bool :=
  c.isDigit || c = '+' || c = '-' || c = '*' || c = '/' || c = '(' || c = ')'

/-- Fuel measure for the round-trip lemmas: an upper bound on the parser
fuel consumed on a printed expression. -/
def psize : PExpr → Nat
  | PExpr.num _ => 2
  | PExpr.neg a => psize a + 10
  | PExpr.add a b => psize a + psize b + 10
  | PExpr.sub a b => psize a + psize b + 10
  | PExpr.mul a b => psize a + psize b + 10
  | PExpr.div a b => psize a + psize b + 10
  | PExpr.pow a b => psize a + psize b + 10

/-- A sample draw date for the concrete test vectors. -/
def d0 : PyDate := ⟨2019, 8, 6⟩

/-- A character list whose head (if any) cannot extend a numeric literal:
used as the continuation condition in the lexer round-trip lemmas. -/
def charHeadOK (rest : List Char) : Prop :=
  rest = [] ∨ ∃ c cs, rest = c :: cs ∧ c.isDigit = false ∧ c ≠ '.'

/-- A token list that does not begin with the two `star` tokens of `**`. -/
def noPowHead (ts : List Tok) : Prop := ∀ r2 : List Tok, ts ≠ Tok.star :: Tok.star :: r2

/-- A token list whose head (if any) is not consumed by the term loop. -/
def noMulHead (ts : List Tok) : Prop :=
  ts.head? ≠ some Tok.star ∧ ts.head? ≠ some Tok.slash

/-- A token list whose head (if any) is not consumed by any operator loop. -/
def noOpHead (ts : List Tok) : Prop :=
  ts.head? ≠ some Tok.star ∧ ts.head? ≠ some Tok.slash ∧
    ts.head? ≠ some Tok.plus ∧ ts.head? ≠ some Tok.minus

mutual

/-- Minimal-parenthesization printer, expression level: `+`/`-` chains are
printed left-associatively without parentheses. -/
def ppE : PExpr → List Tok
  | PExpr.add a b => ppE a ++ Tok.plus :: ppT b
  | PExpr.sub a b => ppE a ++ Tok.minus :: ppT b
  | PExpr.num n => ppT (PExpr.num n)
  | PExpr.neg a => ppT (PExpr.neg a)
  | PExpr.mul a b => ppT (PExpr.mul a b)
  | PExpr.div a b => ppT (PExpr.div a b)
  | PExpr.pow a b => ppT (PExpr.pow a b)
termination_by p => (sizeOf p, 4)

/-- Minimal printer, term level: `*`/`/` chains without parentheses. -/
def ppT : PExpr → List Tok
  | PExpr.mul a b => ppT a ++ Tok.star :: ppU b
  | PExpr.div a b => ppT a ++ Tok.slash :: ppU b
  | PExpr.num n => ppU (PExpr.num n)
  | PExpr.neg a => ppU (PExpr.neg a)
  | PExpr.add a b => ppU (PExpr.add a b)
  | PExpr.sub a b => ppU (PExpr.sub a b)
  | PExpr.pow a b => ppU (PExpr.pow a b)
termination_by p => (sizeOf p, 3)

/-- Minimal printer, unary level: unary minus without parentheses. -/
def ppU : PExpr → List Tok
  | PExpr.neg a => Tok.minus :: ppU a
  | PExpr.num n => ppP (PExpr.num n)
  | PExpr.add a b => ppP (PExpr.add a b)
  | PExpr.sub a b => ppP (PExpr.sub a b)
  | PExpr.mul a b => ppP (PExpr.mul a b)
  | PExpr.div a b => ppP (PExpr.div a b)
  | PExpr.pow a b => ppP (PExpr.pow a b)
termination_by p => (sizeOf p, 2)

/-- Minimal printer, power level: `**` with an atom base and a unary
exponent (right-associative, as in Python). -/
def ppP : PExpr → List Tok
  | PExpr.pow a b => ppA a ++ Tok.star :: Tok.star :: ppU b
  | PExpr.num n => ppA (PExpr.num n)
  | PExpr.neg a => ppA (PExpr.neg a)
  | PExpr.add a b => ppA (PExpr.add a b)
  | PExpr.sub a b => ppA (PExpr.sub a b)
  | PExpr.mul a b => ppA (PExpr.mul a b)
  | PExpr.div a b => ppA (PExpr.div a b)
termination_by p => (sizeOf p, 1)

/-- Minimal printer, atom level: a literal, or a parenthesized expression
for every composite (the expression-level printing is inlined one step so
that every recursive call is on a proper subterm). -/
def ppA : PExpr → List Tok
  | PExpr.num n => [Tok.num (n : Rat)]
  | PExpr.neg a => Tok.lparen :: ((Tok.minus :: ppU a) ++ [Tok.rparen])
  | PExpr.add a b => Tok.lparen :: ((ppE a ++ Tok.plus :: ppT b) ++ [Tok.rparen])
  | PExpr.sub a b => Tok.lparen :: ((ppE a ++ Tok.minus :: ppT b) ++ [Tok.rparen])
  | PExpr.mul a b => Tok.lparen :: ((ppT a ++ Tok.star :: ppU b) ++ [Tok.rparen])
  | PExpr.div a b => Tok.lparen :: ((ppT a ++ Tok.slash :: ppU b) ++ [Tok.rparen])
  | PExpr.pow a b => Tok.lparen :: ((ppA a ++ Tok.star :: Tok.star :: ppU b) ++ [Tok.rparen])
termination_by p => (sizeOf p, 0)

end

/-- Left spine of an expression at `+`/`-` level: the leftmost term and the
list of `(isPlus, term)` continuations, left to right. -/
def eSpine : PExpr → PExpr × List (Bool × PExpr)
  | PExpr.add a b => ((eSpine a).1, (eSpine a).2 ++ [(true, b)])
  | PExpr.sub a b => ((eSpine a).1, (eSpine a).2 ++ [(false, b)])
  | p => (p, [])

/-- Left spine of an expression at `*`/`/` level. -/
def tSpine : PExpr → PExpr × List (Bool × PExpr)
  | PExpr.mul a b => ((tSpine a).1, (tSpine a).2 ++ [(true, b)])
  | PExpr.div a b => ((tSpine a).1, (tSpine a).2 ++ [(false, b)])
  | p => (p, [])

/-- Token rendering of an `+`/`-` continuation list. -/
def eOpsToks (l : List (Bool × PExpr)) : List Tok :=
  l.foldr (fun pr acc => (if pr.1 then Tok.plus else Tok.minus) :: (ppT pr.2 ++ acc)) []

/-- Token rendering of a `*`/`/` continuation list. -/
def tOpsToks (l : List (Bool × PExpr)) : List Tok :=
  l.foldr (fun pr acc => (if pr.1 then Tok.star else Tok.slash) :: (ppU pr.2 ++ acc)) []

/-- The abstract syntax tree a left fold of the `+`/`-` loop builds. -/
def foldE (e : Expr) (l : List (Bool × PExpr)) : Expr :=
  l.foldl (fun acc pr =>
    if pr.1 then Expr.add acc pr.2.embed else Expr.sub acc pr.2.embed) e

/-- The abstract syntax tree a left fold of the `*`/`/` loop builds. -/
def foldT (e : Expr) (l : List (Bool × PExpr)) : Expr :=
  l.foldl (fun acc pr =>
    if pr.1 then Expr.mul acc pr.2.embed else Expr.div acc pr.2.embed) e

/-- Whether a token is a numeric literal. -/
def isNumTok : Tok → Prop
  | Tok.num _ => True
  | _ => False

/-- No two adjacent numeric literals (rendering to text then re-lexing
keeps the token boundaries exactly when this holds). -/
def sepOK : List Tok → Prop
  | [] => True
  | [_] => True
  | t1 :: t2 :: ts => ¬ (isNumTok t1 ∧ isNumTok t2) ∧ sepOK (t2 :: ts)

/-- Every numeric literal in the list is a natural-number literal. -/
def natVals (ts : List Tok) : Prop :=
  ∀ q : Rat, Tok.num q ∈ ts → ∃ n : Nat, q = (n : Rat)

/-- Text of one token (numeric literals must be natural literals). -/
def renderTok : Tok → List Char
  | Tok.num q => natDigs q.num.toNat
  | Tok.plus => ['+']
  | Tok.minus => ['-']
  | Tok.star => ['*']
  | Tok.slash => ['/']
  | Tok.lparen => ['(']
  | Tok.rparen => [')']

/-- Text of a token list. -/
def renderToks (ts : List Tok) : List Char :=
  ts.foldr (fun t acc => renderTok t ++ acc) []

/-- The minimally parenthesized text of a printable expression, written
under standard operator precedence. -/
def printMin (p : PExpr) : String := String.mk (renderToks (ppE p))

/-- Stated from the claim's wording (spec section 4.3): the first failing
rule of the six-step validation sequence, in the listed order — drawNumber
positive, exactly 6 numbers, numbers in range, numbers distinct, bonus in
range, bonus disjoint.  Compared against `construct` as a refinement. -/
def firstFailingRule (dn : Int) (nums : List Int) (b : Int) : Option MSError :=
  if ¬ 0 < dn then some MSError.drawNumberNotPositive
  else if ¬ nums.length = 6 then some MSError.numbersWrongLength
  else if ¬ ∀ n ∈ nums, 1 ≤ n ∧ n ≤ 49 then some MSError.numbersOutOfRange
  else if ¬ nums.Nodup then some MSError.numbersNotUnique
  else if ¬ (1 ≤ b ∧ b ≤ 49) then some MSError.bonusOutOfRange
  else if b ∈ nums then some MSError.bonusInNumbers
  else none

lemma digChar_isDigit (d : Nat) : (digChar d).isDigit = true := by
  rcases d with _|_|_|_|_|_|_|_|_|d <;> rfl

lemma digChar_toNat (d : Nat) (h : d < 10) : (digChar d).toNat - 48 = d := by
  interval_cases d <;> rfl

lemma dval_append (i : Nat) (l1 l2 : List Char) :
    dval i (l1 ++ l2) = dval (dval i l1) l2 := by
  simp [dval, List.foldl_append]

lemma natDigs_all_digit : ∀ n : Nat, ∀ c ∈ natDigs n, c.isDigit = true := by
  intro n
  induction n using natDigs.induct with
  | case1 n h => rw [natDigs]; simp [h]; exact digChar_isDigit n
  | case2 n h ih =>
    rw [natDigs]
    simp only [h, dite_false]
    intro c hc
    rcases List.mem_append.mp hc with h1 | h1
    · exact ih c h1
    · simp at h1; subst h1; exact digChar_isDigit _

lemma natDigs_ne_nil (n : Nat) : natDigs n ≠ [] := by
  rw [natDigs]
  split <;> simp

lemma dval_natDigs (n : Nat) : ∀ i, dval i (natDigs n) = i * 10 ^ (natDigs n).length + n := by
  induction n using natDigs.induct with
  | case1 n h =>
    intro i
    rw [natDigs]
    simp [h, dval, digChar_toNat n h]
  | case2 n h ih =>
    intro i
    rw [natDigs]
    simp only [h, dite_false]
    rw [dval_append, ih]
    have h10 : (digChar (n % 10)).toNat - 48 = n % 10 := digChar_toNat _ (Nat.mod_lt _ (by omega))
    simp [dval, h10, List.length_append]
    ring_nf
    omega

lemma dval_natDigs0 (n : Nat) : dval 0 (natDigs n) = n := by
  simp [dval_natDigs n 0]

lemma tokLoop_plus (cs : List Char) :
    tokLoop ('+' :: cs) none = (tokLoop cs none).map (fun ts => Tok.plus :: ts) := rfl

lemma tokLoop_minus (cs : List Char) :
    tokLoop ('-' :: cs) none = (tokLoop cs none).map (fun ts => Tok.minus :: ts) := rfl

lemma tokLoop_star (cs : List Char) :
    tokLoop ('*' :: cs) none = (tokLoop cs none).map (fun ts => Tok.star :: ts) := rfl

lemma tokLoop_slash (cs : List Char) :
    tokLoop ('/' :: cs) none = (tokLoop cs none).map (fun ts => Tok.slash :: ts) := rfl

lemma tokLoop_lparen (cs : List Char) :
    tokLoop ('(' :: cs) none = (tokLoop cs none).map (fun ts => Tok.lparen :: ts) := rfl

lemma tokLoop_rparen (cs : List Char) :
    tokLoop (')' :: cs) none = (tokLoop cs none).map (fun ts => Tok.rparen :: ts) := rfl

lemma intAcc_val (n : Nat) : NumAcc.val ⟨n, false, 0, 1, true⟩ = (n : Rat) := by
  simp [NumAcc.val]

lemma tokLoop_digit_run :
    ∀ (ds : List Char), (∀ c ∈ ds, c.isDigit = true) → ∀ (rest : List Char) (i : Nat) (b : Bool),
      tokLoop (ds ++ rest) (some ⟨i, false, 0, 1, b⟩) =
        tokLoop rest (some ⟨dval i ds, false, 0, 1, b || !ds.isEmpty⟩) := by
  intro ds
  induction ds with
  | nil => intro _ rest i b; simp [dval]
  | cons c ds ih =>
    intro hall rest i b
    have hc : c.isDigit = true := hall c (by simp)
    simp only [List.cons_append, tokLoop, hc, if_true]
    have hstep : ((some (NumAcc.mk i false 0 1 b)).getD startAcc).pushDigit (c.toNat - 48) =
        NumAcc.mk (i * 10 + (c.toNat - 48)) false 0 1 true := by
      simp [NumAcc.pushDigit, Option.getD]
    simp only [List.append_eq]
    rw [hstep, ih (fun x hx => hall x (by simp [hx]))]
    simp [dval, List.foldl_cons]

lemma tokLoop_entry (ds rest : List Char) (hne : ds ≠ [])
    (hall : ∀ c ∈ ds, c.isDigit = true) :
    tokLoop (ds ++ rest) none = tokLoop rest (some ⟨dval 0 ds, false, 0, 1, true⟩) := by
  cases ds with
  | nil => exact absurd rfl hne
  | cons c ds =>
    have hc : c.isDigit = true := hall c (by simp)
    simp only [List.cons_append, tokLoop, hc, if_true]
    have hstep : (Option.getD none startAcc).pushDigit (c.toNat - 48) =
        NumAcc.mk (c.toNat - 48) false 0 1 true := by
      simp [NumAcc.pushDigit, Option.getD, startAcc]
    simp only [List.append_eq]
    rw [hstep, tokLoop_digit_run ds (fun x hx => hall x (by simp [hx])) rest _ true]
    simp [dval, List.foldl_cons]

lemma withFlush_int (n : Nat) (x : Option (List Tok)) :
    withFlush (some ⟨n, false, 0, 1, true⟩) x =
      (withFlush none x).map (fun ts => Tok.num (n : Rat) :: ts) := by
  simp [withFlush, intAcc_val]

lemma tokLoop_flush (rest : List Char) (n : Nat) (h : charHeadOK rest) :
    tokLoop rest (some ⟨n, false, 0, 1, true⟩) =
      (tokLoop rest none).map (fun ts => Tok.num (n : Rat) :: ts) := by
  rcases h with rfl | ⟨c, cs, rfl, hd, hdot⟩
  · simp [tokLoop, withFlush_int]
  · simp only [tokLoop, hd, Bool.false_eq_true, if_false, hdot, if_neg]
    split_ifs <;> simp [withFlush_int]

lemma tokLoop_print_num (n : Nat) (rest : List Char) (h : charHeadOK rest) :
    tokLoop (natDigs n ++ rest) none =
      (tokLoop rest none).map (fun ts => Tok.num (n : Rat) :: ts) := by
  rw [tokLoop_entry (natDigs n) rest (natDigs_ne_nil n) (natDigs_all_digit n),
    dval_natDigs0, tokLoop_flush rest n h]

lemma charHeadOK_cons (c : Char) (cs : List Char) (hd : c.isDigit = false) (hdot : c ≠ '.') :
    charHeadOK (c :: cs) := Or.inr ⟨c, cs, rfl, hd, hdot⟩

lemma tokLoop_print (p : PExpr) : ∀ rest : List Char, charHeadOK rest →
    tokLoop (printChars p ++ rest) none =
      (tokLoop rest none).map (fun ts => printToks p ++ ts) := by
  induction p with
  | num n =>
    intro rest h
    rw [printChars, tokLoop_print_num n rest h, printToks]
    rfl
  | neg a iha =>
    intro rest h
    simp only [printChars, printToks, List.cons_append, List.append_assoc, List.singleton_append, List.nil_append]
    rw [tokLoop_lparen, tokLoop_minus,
      iha (')' :: rest) (charHeadOK_cons _ _ (by decide) (by decide)),
      tokLoop_rparen]
    simp [Option.map_map, Function.comp_def]
  | add a b iha ihb =>
    intro rest h
    simp only [printChars, printToks, List.cons_append, List.append_assoc, List.singleton_append, List.nil_append]
    rw [tokLoop_lparen,
      iha ('+' :: (printChars b ++ ')' :: rest)) (charHeadOK_cons _ _ (by decide) (by decide)),
      tokLoop_plus,
      ihb (')' :: rest) (charHeadOK_cons _ _ (by decide) (by decide)),
      tokLoop_rparen]
    simp [Option.map_map, Function.comp_def]
  | sub a b iha ihb =>
    intro rest h
    simp only [printChars, printToks, List.cons_append, List.append_assoc, List.singleton_append, List.nil_append]
    rw [tokLoop_lparen,
      iha ('-' :: (printChars b ++ ')' :: rest)) (charHeadOK_cons _ _ (by decide) (by decide)),
      tokLoop_minus,
      ihb (')' :: rest) (charHeadOK_cons _ _ (by decide) (by decide)),
      tokLoop_rparen]
    simp [Option.map_map, Function.comp_def]
  | mul a b iha ihb =>
    intro rest h
    simp only [printChars, printToks, List.cons_append, List.append_assoc, List.singleton_append, List.nil_append]
    rw [tokLoop_lparen,
      iha ('*' :: (printChars b ++ ')' :: rest)) (charHeadOK_cons _ _ (by decide) (by decide)),
      tokLoop_star,
      ihb (')' :: rest) (charHeadOK_cons _ _ (by decide) (by decide)),
      tokLoop_rparen]
    simp [Option.map_map, Function.comp_def]
  | div a b iha ihb =>
    intro rest h
    simp only [printChars, printToks, List.cons_append, List.append_assoc, List.singleton_append, List.nil_append]
    rw [tokLoop_lparen,
      iha ('/' :: (printChars b ++ ')' :: rest)) (charHeadOK_cons _ _ (by decide) (by decide)),
      tokLoop_slash,
      ihb (')' :: rest) (charHeadOK_cons _ _ (by decide) (by decide)),
      tokLoop_rparen]
    simp [Option.map_map, Function.comp_def]
  | pow a b iha ihb =>
    intro rest h
    simp only [printChars, printToks, List.cons_append, List.append_assoc, List.singleton_append, List.nil_append]
    rw [tokLoop_lparen,
      iha ('*' :: '*' :: (printChars b ++ ')' :: rest)) (charHeadOK_cons _ _ (by decide) (by decide)),
      tokLoop_star, tokLoop_star,
      ihb (')' :: rest) (charHeadOK_cons _ _ (by decide) (by decide)),
      tokLoop_rparen]
    simp [Option.map_map, Function.comp_def]

lemma tokenize_print (p : PExpr) : tokenize (printChars p) = some (printToks p) := by
  have h := tokLoop_print p [] (Or.inl rfl)
  rw [List.append_nil] at h
  rw [tokenize, h]
  simp [tokLoop, withFlush]

lemma psize_pos (p : PExpr) : 2 ≤ psize p := by
  cases p <;> simp [psize]

lemma printToks_shape (p : PExpr) :
    (∃ l, printToks p = Tok.lparen :: l) ∨ ∃ q, printToks p = [Tok.num q] := by
  cases p <;> simp [printToks]

lemma printToks_append_ne_minus (p : PExpr) (rest : List Tok) :
    (printToks p ++ rest).head? ≠ some Tok.minus := by
  rcases printToks_shape p with ⟨l, hl⟩ | ⟨q, hl⟩ <;> rw [hl] <;> simp

lemma noPowHead_of_head (ts : List Tok) (h : ts.head? ≠ some Tok.star) : noPowHead ts := by
  intro r2 hr
  rw [hr] at h
  simp at h

lemma noPowHead_print_cont (t : Tok) (p : PExpr) (rest : List Tok) (ht : t ≠ Tok.star) :
    noPowHead (Tok.star :: (printToks p ++ t :: rest)) := by
  intro r2 h
  have h2 : printToks p ++ t :: rest = Tok.star :: r2 := by
    injection h
  rcases printToks_shape p with ⟨l, hl⟩ | ⟨q, hl⟩ <;> rw [hl] at h2 <;> simp at h2

lemma loopE_stop (f : Nat) (e : Expr) (ts : List Tok) (hf : 0 < f)
    (hp : ts.head? ≠ some Tok.plus) (hm : ts.head? ≠ some Tok.minus) :
    loopE f e ts = some (e, ts) := by
  obtain ⟨g, rfl⟩ : ∃ g, f = g + 1 := ⟨f - 1, by omega⟩
  cases ts with
  | nil => rfl
  | cons t r =>
    cases t
    case plus => simp at hp
    case minus => simp at hm
    all_goals rfl

lemma loopT_stop (f : Nat) (e : Expr) (ts : List Tok) (hf : 0 < f)
    (hs : ts.head? ≠ some Tok.star) (hd : ts.head? ≠ some Tok.slash) :
    loopT f e ts = some (e, ts) := by
  obtain ⟨g, rfl⟩ : ∃ g, f = g + 1 := ⟨f - 1, by omega⟩
  cases ts with
  | nil => rfl
  | cons t r =>
    cases t
    case star => simp at hs
    case slash => simp at hd
    all_goals rfl

lemma parseU_nominus (f : Nat) (ts : List Tok) (h : ts.head? ≠ some Tok.minus) :
    parseU (f + 1) ts = parsePow f ts := by
  cases ts with
  | nil => rfl
  | cons t r =>
    cases t
    case minus => simp at h
    all_goals rfl

lemma parseU_minus_step (f : Nat) (r : List Tok) (e : Expr) (r2 : List Tok)
    (h : parseU f r = some (e, r2)) :
    parseU (f + 1) (Tok.minus :: r) = some (Expr.neg e, r2) := by
  show (match parseU f r with
    | some (e, r2) => some (Expr.neg e, r2)
    | none => none) = _
  rw [h]

lemma parseE_step (f : Nat) (ts : List Tok) (e : Expr) (r : List Tok)
    (h : parseT f ts = some (e, r)) : parseE (f + 1) ts = loopE f e r := by
  show (match parseT f ts with
    | some (e, r) => loopE f e r
    | none => none) = _
  rw [h]

lemma parseT_step (f : Nat) (ts : List Tok) (e : Expr) (r : List Tok)
    (h : parseU f ts = some (e, r)) : parseT (f + 1) ts = loopT f e r := by
  show (match parseU f ts with
    | some (e, r) => loopT f e r
    | none => none) = _
  rw [h]

lemma loopE_plus_step (f : Nat) (e : Expr) (r : List Tok) (e2 : Expr) (r2 : List Tok)
    (h : parseT f r = some (e2, r2)) :
    loopE (f + 1) e (Tok.plus :: r) = loopE f (Expr.add e e2) r2 := by
  show (match parseT f r with
    | some (e2, r2) => loopE f (Expr.add e e2) r2
    | none => none) = _
  rw [h]

lemma loopE_minus_step (f : Nat) (e : Expr) (r : List Tok) (e2 : Expr) (r2 : List Tok)
    (h : parseT f r = some (e2, r2)) :
    loopE (f + 1) e (Tok.minus :: r) = loopE f (Expr.sub e e2) r2 := by
  show (match parseT f r with
    | some (e2, r2) => loopE f (Expr.sub e e2) r2
    | none => none) = _
  rw [h]

lemma loopT_star_step (f : Nat) (e : Expr) (r : List Tok) (e2 : Expr) (r2 : List Tok)
    (h : parseU f r = some (e2, r2)) :
    loopT (f + 1) e (Tok.star :: r) = loopT f (Expr.mul e e2) r2 := by
  show (match parseU f r with
    | some (e2, r2) => loopT f (Expr.mul e e2) r2
    | none => none) = _
  rw [h]

lemma loopT_slash_step (f : Nat) (e : Expr) (r : List Tok) (e2 : Expr) (r2 : List Tok)
    (h : parseU f r = some (e2, r2)) :
    loopT (f + 1) e (Tok.slash :: r) = loopT f (Expr.div e e2) r2 := by
  show (match parseU f r with
    | some (e2, r2) => loopT f (Expr.div e e2) r2
    | none => none) = _
  rw [h]

lemma parsePow_star_step (f : Nat) (ts : List Tok) (a : Expr) (r2 : List Tok) (b : Expr)
    (r3 : List Tok) (h : parseAtom f ts = some (a, Tok.star :: Tok.star :: r2))
    (h2 : parseU f r2 = some (b, r3)) :
    parsePow (f + 1) ts = some (Expr.pow a b, r3) := by
  show (match parseAtom f ts with
    | some (a, r) =>
      match r with
      | Tok.star :: Tok.star :: r2 =>
        match parseU f r2 with
        | some (b, r3) => some (Expr.pow a b, r3)
        | none => none
      | _ => some (a, r)
    | none => none) = _
  rw [h]
  show (match parseU f r2 with
    | some (b, r3) => some (Expr.pow a b, r3)
    | none => none) = _
  rw [h2]

lemma parseAtom_lparen_step (f : Nat) (r : List Tok) (e : Expr) (r3 : List Tok)
    (h : parseE f r = some (e, Tok.rparen :: r3)) :
    parseAtom (f + 1) (Tok.lparen :: r) = some (e, r3) := by
  show (match parseE f r with
    | some (e, r2) =>
      match r2 with
      | Tok.rparen :: r3 => some (e, r3)
      | _ => none
    | none => none) = _
  rw [h]

lemma parseU_print_of (p : PExpr)
    (hLA : ∀ f rest, psize p ≤ f → parseAtom f (printToks p ++ rest) = some (p.embed, rest)) :
    ∀ f rest, psize p + 2 ≤ f → noPowHead rest →
      parseU f (printToks p ++ rest) = some (p.embed, rest) := by
  intro f rest hf hns
  have hp2 := psize_pos p
  obtain ⟨g, rfl⟩ : ∃ g, f = g + 1 := ⟨f - 1, by omega⟩
  rw [parseU_nominus g _ (printToks_append_ne_minus p rest)]
  obtain ⟨h, rfl⟩ : ∃ h, g = h + 1 := ⟨g - 1, by omega⟩
  have hA := hLA h rest (by omega)
  simp only [parsePow, hA]
  rcases rest with _ | ⟨t, r⟩
  · rfl
  · cases t
    case star =>
      rcases r with _ | ⟨t2, r2⟩
      · rfl
      · cases t2
        case star => exact absurd rfl (hns r2)
        all_goals rfl
    all_goals rfl

lemma parseT_print_of (p : PExpr)
    (hLA : ∀ f rest, psize p ≤ f → parseAtom f (printToks p ++ rest) = some (p.embed, rest)) :
    ∀ f rest, psize p + 4 ≤ f → noMulHead rest →
      parseT f (printToks p ++ rest) = some (p.embed, rest) := by
  intro f rest hf hnm
  have hp2 := psize_pos p
  obtain ⟨g, rfl⟩ : ∃ g, f = g + 1 := ⟨f - 1, by omega⟩
  exact (parseT_step g _ _ _
      (parseU_print_of p hLA g rest (by omega) (noPowHead_of_head rest hnm.1))).trans
    (loopT_stop g p.embed rest (by omega) hnm.1 hnm.2)

lemma parseE_print_of (p : PExpr)
    (hLA : ∀ f rest, psize p ≤ f → parseAtom f (printToks p ++ rest) = some (p.embed, rest)) :
    ∀ f rest, psize p + 6 ≤ f → noOpHead rest →
      parseE f (printToks p ++ rest) = some (p.embed, rest) := by
  intro f rest hf hno
  have hp2 := psize_pos p
  obtain ⟨g, rfl⟩ : ∃ g, f = g + 1 := ⟨f - 1, by omega⟩
  exact (parseE_step g _ _ _
      (parseT_print_of p hLA g rest (by omega) ⟨hno.1, hno.2.1⟩)).trans
    (loopE_stop g p.embed rest (by omega) hno.2.2.1 hno.2.2.2)

lemma parseAtom_print : ∀ (p : PExpr) (f : Nat) (rest : List Tok), psize p ≤ f →
    parseAtom f (printToks p ++ rest) = some (p.embed, rest) := by
  intro p
  induction p with
  | num n =>
    intro f rest hf
    obtain ⟨g, rfl⟩ : ∃ g, f = g + 1 := ⟨f - 1, by simp [psize] at hf; omega⟩
    simp [printToks, parseAtom, PExpr.embed]
  | neg a iha =>
    intro f rest hf
    have hpa := psize_pos a
    simp only [psize] at hf
    obtain ⟨m, rfl⟩ : ∃ m, f = m + 5 := ⟨f - 5, by omega⟩
    simp only [printToks, PExpr.embed, List.cons_append, List.append_assoc,
      List.singleton_append, List.nil_append]
    have hU : parseU (m + 2) (Tok.minus :: (printToks a ++ Tok.rparen :: rest)) =
        some (Expr.neg a.embed, Tok.rparen :: rest) :=
      parseU_minus_step (m + 1) _ _ _
        (parseU_print_of a iha (m + 1) _ (by omega) (noPowHead_of_head _ (by simp)))
    have hT : parseT (m + 3) (Tok.minus :: (printToks a ++ Tok.rparen :: rest)) =
        some (Expr.neg a.embed, Tok.rparen :: rest) :=
      (parseT_step (m + 2) _ _ _ hU).trans (loopT_stop (m + 2) _ _ (by omega) (by simp) (by simp))
    have hE : parseE (m + 4) (Tok.minus :: (printToks a ++ Tok.rparen :: rest)) =
        some (Expr.neg a.embed, Tok.rparen :: rest) :=
      (parseE_step (m + 3) _ _ _ hT).trans (loopE_stop (m + 3) _ _ (by omega) (by simp) (by simp))
    exact parseAtom_lparen_step (m + 4) _ _ _ hE
  | add a b iha ihb =>
    intro f rest hf
    have hpa := psize_pos a
    have hpb := psize_pos b
    simp only [psize] at hf
    obtain ⟨k, rfl⟩ : ∃ k, f = k + 4 := ⟨f - 4, by omega⟩
    simp only [printToks, PExpr.embed, List.cons_append, List.append_assoc,
      List.singleton_append, List.nil_append]
    have hTa : parseT (k + 2) (printToks a ++ Tok.plus :: (printToks b ++ Tok.rparen :: rest)) =
        some (a.embed, Tok.plus :: (printToks b ++ Tok.rparen :: rest)) :=
      parseT_print_of a iha (k + 2) _ (by omega) (by constructor <;> simp)
    have hTb : parseT (k + 1) (printToks b ++ Tok.rparen :: rest) =
        some (b.embed, Tok.rparen :: rest) :=
      parseT_print_of b ihb (k + 1) _ (by omega) (by constructor <;> simp)
    have hL : loopE (k + 2) a.embed (Tok.plus :: (printToks b ++ Tok.rparen :: rest)) =
        some (Expr.add a.embed b.embed, Tok.rparen :: rest) :=
      (loopE_plus_step (k + 1) _ _ _ _ hTb).trans
        (loopE_stop (k + 1) _ _ (by omega) (by simp) (by simp))
    have hE : parseE (k + 3) (printToks a ++ Tok.plus :: (printToks b ++ Tok.rparen :: rest)) =
        some (Expr.add a.embed b.embed, Tok.rparen :: rest) :=
      (parseE_step (k + 2) _ _ _ hTa).trans hL
    exact parseAtom_lparen_step (k + 3) _ _ _ hE
  | sub a b iha ihb =>
    intro f rest hf
    have hpa := psize_pos a
    have hpb := psize_pos b
    simp only [psize] at hf
    obtain ⟨k, rfl⟩ : ∃ k, f = k + 4 := ⟨f - 4, by omega⟩
    simp only [printToks, PExpr.embed, List.cons_append, List.append_assoc,
      List.singleton_append, List.nil_append]
    have hTa : parseT (k + 2) (printToks a ++ Tok.minus :: (printToks b ++ Tok.rparen :: rest)) =
        some (a.embed, Tok.minus :: (printToks b ++ Tok.rparen :: rest)) :=
      parseT_print_of a iha (k + 2) _ (by omega) (by constructor <;> simp)
    have hTb : parseT (k + 1) (printToks b ++ Tok.rparen :: rest) =
        some (b.embed, Tok.rparen :: rest) :=
      parseT_print_of b ihb (k + 1) _ (by omega) (by constructor <;> simp)
    have hL : loopE (k + 2) a.embed (Tok.minus :: (printToks b ++ Tok.rparen :: rest)) =
        some (Expr.sub a.embed b.embed, Tok.rparen :: rest) :=
      (loopE_minus_step (k + 1) _ _ _ _ hTb).trans
        (loopE_stop (k + 1) _ _ (by omega) (by simp) (by simp))
    have hE : parseE (k + 3) (printToks a ++ Tok.minus :: (printToks b ++ Tok.rparen :: rest)) =
        some (Expr.sub a.embed b.embed, Tok.rparen :: rest) :=
      (parseE_step (k + 2) _ _ _ hTa).trans hL
    exact parseAtom_lparen_step (k + 3) _ _ _ hE
  | mul a b iha ihb =>
    intro f rest hf
    have hpa := psize_pos a
    have hpb := psize_pos b
    simp only [psize] at hf
    obtain ⟨k, rfl⟩ : ∃ k, f = k + 4 := ⟨f - 4, by omega⟩
    simp only [printToks, PExpr.embed, List.cons_append, List.append_assoc,
      List.singleton_append, List.nil_append]
    have hUa : parseU (k + 1) (printToks a ++ Tok.star :: (printToks b ++ Tok.rparen :: rest)) =
        some (a.embed, Tok.star :: (printToks b ++ Tok.rparen :: rest)) :=
      parseU_print_of a iha (k + 1) _ (by omega)
        (noPowHead_print_cont Tok.rparen b rest (by simp))
    have hUb : parseU k (printToks b ++ Tok.rparen :: rest) =
        some (b.embed, Tok.rparen :: rest) :=
      parseU_print_of b ihb k _ (by omega) (noPowHead_of_head _ (by simp))
    have hLT : loopT (k + 1) a.embed (Tok.star :: (printToks b ++ Tok.rparen :: rest)) =
        some (Expr.mul a.embed b.embed, Tok.rparen :: rest) :=
      (loopT_star_step k _ _ _ _ hUb).trans (loopT_stop k _ _ (by omega) (by simp) (by simp))
    have hT : parseT (k + 2) (printToks a ++ Tok.star :: (printToks b ++ Tok.rparen :: rest)) =
        some (Expr.mul a.embed b.embed, Tok.rparen :: rest) :=
      (parseT_step (k + 1) _ _ _ hUa).trans hLT
    have hE : parseE (k + 3) (printToks a ++ Tok.star :: (printToks b ++ Tok.rparen :: rest)) =
        some (Expr.mul a.embed b.embed, Tok.rparen :: rest) :=
      (parseE_step (k + 2) _ _ _ hT).trans
        (loopE_stop (k + 2) _ _ (by omega) (by simp) (by simp))
    exact parseAtom_lparen_step (k + 3) _ _ _ hE
  | div a b iha ihb =>
    intro f rest hf
    have hpa := psize_pos a
    have hpb := psize_pos b
    simp only [psize] at hf
    obtain ⟨k, rfl⟩ : ∃ k, f = k + 4 := ⟨f - 4, by omega⟩
    simp only [printToks, PExpr.embed, List.cons_append, List.append_assoc,
      List.singleton_append, List.nil_append]
    have hUa : parseU (k + 1) (printToks a ++ Tok.slash :: (printToks b ++ Tok.rparen :: rest)) =
        some (a.embed, Tok.slash :: (printToks b ++ Tok.rparen :: rest)) :=
      parseU_print_of a iha (k + 1) _ (by omega) (noPowHead_of_head _ (by simp))
    have hUb : parseU k (printToks b ++ Tok.rparen :: rest) =
        some (b.embed, Tok.rparen :: rest) :=
      parseU_print_of b ihb k _ (by omega) (noPowHead_of_head _ (by simp))
    have hLT : loopT (k + 1) a.embed (Tok.slash :: (printToks b ++ Tok.rparen :: rest)) =
        some (Expr.div a.embed b.embed, Tok.rparen :: rest) :=
      (loopT_slash_step k _ _ _ _ hUb).trans (loopT_stop k _ _ (by omega) (by simp) (by simp))
    have hT : parseT (k + 2) (printToks a ++ Tok.slash :: (printToks b ++ Tok.rparen :: rest)) =
        some (Expr.div a.embed b.embed, Tok.rparen :: rest) :=
      (parseT_step (k + 1) _ _ _ hUa).trans hLT
    have hE : parseE (k + 3) (printToks a ++ Tok.slash :: (printToks b ++ Tok.rparen :: rest)) =
        some (Expr.div a.embed b.embed, Tok.rparen :: rest) :=
      (parseE_step (k + 2) _ _ _ hT).trans
        (loopE_stop (k + 2) _ _ (by omega) (by simp) (by simp))
    exact parseAtom_lparen_step (k + 3) _ _ _ hE
  | pow a b iha ihb =>
    intro f rest hf
    have hpa := psize_pos a
    have hpb := psize_pos b
    simp only [psize] at hf
    obtain ⟨m, rfl⟩ : ∃ m, f = m + 5 := ⟨f - 5, by omega⟩
    simp only [printToks, PExpr.embed, List.cons_append, List.append_assoc,
      List.singleton_append, List.nil_append]
    have hA : parseAtom m
        (printToks a ++ Tok.star :: Tok.star :: (printToks b ++ Tok.rparen :: rest)) =
        some (a.embed, Tok.star :: Tok.star :: (printToks b ++ Tok.rparen :: rest)) :=
      iha m _ (by omega)
    have hUb : parseU m (printToks b ++ Tok.rparen :: rest) =
        some (b.embed, Tok.rparen :: rest) :=
      parseU_print_of b ihb m _ (by omega) (noPowHead_of_head _ (by simp))
    have hPow : parsePow (m + 1)
        (printToks a ++ Tok.star :: Tok.star :: (printToks b ++ Tok.rparen :: rest)) =
        some (Expr.pow a.embed b.embed, Tok.rparen :: rest) :=
      parsePow_star_step m _ _ _ _ _ hA hUb
    have hU : parseU (m + 2)
        (printToks a ++ Tok.star :: Tok.star :: (printToks b ++ Tok.rparen :: rest)) =
        some (Expr.pow a.embed b.embed, Tok.rparen :: rest) :=
      (parseU_nominus (m + 1) _ (printToks_append_ne_minus a _)).trans hPow
    have hT : parseT (m + 3)
        (printToks a ++ Tok.star :: Tok.star :: (printToks b ++ Tok.rparen :: rest)) =
        some (Expr.pow a.embed b.embed, Tok.rparen :: rest) :=
      (parseT_step (m + 2) _ _ _ hU).trans
        (loopT_stop (m + 2) _ _ (by omega) (by simp) (by simp))
    have hE : parseE (m + 4)
        (printToks a ++ Tok.star :: Tok.star :: (printToks b ++ Tok.rparen :: rest)) =
        some (Expr.pow a.embed b.embed, Tok.rparen :: rest) :=
      (parseE_step (m + 3) _ _ _ hT).trans
        (loopE_stop (m + 3) _ _ (by omega) (by simp) (by simp))
    exact parseAtom_lparen_step (m + 4) _ _ _ hE

lemma psize_le (p : PExpr) : psize p ≤ 10 * (printToks p).length := by
  induction p <;> simp [printToks, psize, List.length_append] <;> omega

lemma parseExpr_print (p : PExpr) : parseExpr (printToks p) = some p.embed := by
  have hE := parseE_print_of p (parseAtom_print p) (10 * (printToks p).length + 10) []
    (by have := psize_le p; omega) (by refine ⟨?_, ?_, ?_, ?_⟩ <;> simp)
  rw [List.append_nil] at hE
  rw [parseExpr, hE]

lemma simple_eval_print (p : PExpr) : simple_eval (printChars p) = evalAst p.embed := by
  rw [simple_eval, tokenize_print]
  show (match parseExpr (printToks p) with
    | none => Except.error "invalid syntax"
    | some e => evalAst e) = _
  rw [parseExpr_print]

lemma printChars_good (p : PExpr) : ∀ c ∈ printChars p, goodChar c = true := by
  induction p with
  | num n =>
    intro c hc
    have hd := natDigs_all_digit n c hc
    simp [goodChar, hd]
  | neg a iha =>
    intro c hc
    simp only [printChars, List.mem_cons, List.mem_append, List.mem_singleton,
      List.not_mem_nil, or_false] at hc
    rcases hc with rfl | rfl | hc | rfl
    · decide
    · decide
    · exact iha c hc
    · decide
  | add a b iha ihb =>
    intro c hc
    simp only [printChars, List.mem_cons, List.mem_append, List.mem_singleton,
      List.not_mem_nil, or_false] at hc
    rcases hc with rfl | hc | rfl | hc | rfl
    · decide
    · exact iha c hc
    · decide
    · exact ihb c hc
    · decide
  | sub a b iha ihb =>
    intro c hc
    simp only [printChars, List.mem_cons, List.mem_append, List.mem_singleton,
      List.not_mem_nil, or_false] at hc
    rcases hc with rfl | hc | rfl | hc | rfl
    · decide
    · exact iha c hc
    · decide
    · exact ihb c hc
    · decide
  | mul a b iha ihb =>
    intro c hc
    simp only [printChars, List.mem_cons, List.mem_append, List.mem_singleton,
      List.not_mem_nil, or_false] at hc
    rcases hc with rfl | hc | rfl | hc | rfl
    · decide
    · exact iha c hc
    · decide
    · exact ihb c hc
    · decide
  | div a b iha ihb =>
    intro c hc
    simp only [printChars, List.mem_cons, List.mem_append, List.mem_singleton,
      List.not_mem_nil, or_false] at hc
    rcases hc with rfl | hc | rfl | hc | rfl
    · decide
    · exact iha c hc
    · decide
    · exact ihb c hc
    · decide
  | pow a b iha ihb =>
    intro c hc
    simp only [printChars, List.mem_cons, List.mem_append, List.mem_singleton,
      List.not_mem_nil, or_false] at hc
    rcases hc with rfl | hc | rfl | rfl | hc | rfl
    · decide
    · exact iha c hc
    · decide
    · decide
    · exact ihb c hc
    · decide

lemma isDigit_toNat_range (c : Char) (h : c.isDigit = true) :
    48 ≤ c.toNat ∧ c.toNat ≤ 57 := by
  simp only [Char.isDigit, Bool.and_eq_true, decide_eq_true_eq] at h
  obtain ⟨h1, h2⟩ := h
  constructor
  · exact h1
  · exact h2

lemma goodChar_ne_glyph (c : Char) (h : goodChar c = true) : c ≠ '×' ∧ c ≠ '÷' := by
  constructor <;> rintro rfl <;> simp [goodChar] at h

lemma goodChar_not_ws (c : Char) (h : goodChar c = true) : c.isWhitespace = false := by
  by_contra hw
  simp only [Bool.not_eq_false] at hw
  have h4 : ((c = ' ' ∨ c = '\t') ∨ c = '\x0d') ∨ c = '\n' := by
    simpa [Char.isWhitespace] using hw
  rcases h4 with ((rfl | rfl) | rfl) | rfl <;> simp [goodChar] at h

lemma map_id_on {α : Type} (f : α → α) :
    ∀ l : List α, (∀ c ∈ l, f c = c) → l.map f = l := by
  intro l
  induction l with
  | nil => intro _; rfl
  | cons c cs ih =>
    intro h
    simp only [List.map_cons, h c (by simp)]
    rw [ih (fun x hx => h x (by simp [hx]))]

lemma dropWhile_id_on (P : Char → Bool) :
    ∀ l : List Char, (∀ c ∈ l, P c = false) → l.dropWhile P = l := by
  intro l
  cases l with
  | nil => intro _; rfl
  | cons c cs =>
    intro h
    simp [List.dropWhile_cons, h c (by simp)]

lemma pyStrip_id_on (l : List Char) (h : ∀ c ∈ l, c.isWhitespace = false) : pyStrip l = l := by
  rw [pyStrip, dropWhile_id_on _ l h,
    dropWhile_id_on _ l.reverse (fun c hc => h c (List.mem_reverse.mp hc)), List.reverse_reverse]

lemma pyReplace_print (p : PExpr) : pyReplace (printChars p) = printChars p := by
  apply map_id_on
  intro c hc
  have hg := goodChar_ne_glyph c (printChars_good p c hc)
  simp [replaceChar, hg.1, hg.2]

lemma pyStrip_print (p : PExpr) : pyStrip (printChars p) = printChars p :=
  pyStrip_id_on _ (fun c hc => goodChar_not_ws c (printChars_good p c hc))

lemma evaluate_print (p : PExpr) :
    evaluate (printStr p) =
      match evalAst p.embed with
      | Except.ok v => Except.ok v
      | Except.error m =>
        Except.error ("Cannot evaluate expression: " ++ printStr p ++ ". Error: " ++ m) := by
  show (match simple_eval (pyStrip (pyReplace (printChars p))) with
    | Except.ok v => Except.ok v
    | Except.error m =>
      Except.error
        ("Cannot evaluate expression: " ++ String.mk (pyReplace (printChars p)) ++
          ". Error: " ++ m)) = _
  rw [pyReplace_print, pyStrip_print, simple_eval_print]
  rfl

lemma evaluate_print_ok (p : PExpr) (v : Rat) (h : evalAst p.embed = Except.ok v) :
    evaluate (printStr p) = Except.ok v := by
  rw [evaluate_print, h]

lemma withFlush_some (acc : Option NumAcc) (x : Option (List Tok)) (ts : List Tok)
    (h : withFlush acc x = some ts) : ∃ ts2, x = some ts2 := by
  cases acc with
  | none => exact ⟨ts, h⟩
  | some a =>
    by_cases hsd : a.sawDigit = true
    · simp only [withFlush, hsd, if_true] at h
      obtain ⟨x2, hx2, _⟩ := Option.map_eq_some'.mp h
      exact ⟨x2, hx2⟩
    · simp only [withFlush, hsd] at h
      simp at h

lemma tokLoop_allowed : ∀ (cs : List Char) (acc : Option NumAcc) (ts : List Tok),
    tokLoop cs acc = some ts → ∀ c ∈ cs, allowedChar c = true := by
  intro cs
  induction cs with
  | nil => intro _ _ _ c hc; simp at hc
  | cons c cs ih =>
    intro acc ts h x hx
    rcases List.mem_cons.mp hx with rfl | hx
    · -- x = c : the head character was accepted by some branch
      by_cases hd : x.isDigit
      · simp [allowedChar, hd]
      by_cases hdot : x = '.'
      · simp [allowedChar, hdot]
      by_cases hws : x.isWhitespace
      · simp [allowedChar, hws]
      by_cases hp : x = '+'
      · simp [allowedChar, hp]
      by_cases hm : x = '-'
      · simp [allowedChar, hm]
      by_cases hs : x = '*'
      · simp [allowedChar, hs]
      by_cases hsl : x = '/'
      · simp [allowedChar, hsl]
      by_cases hl : x = '('
      · simp [allowedChar, hl]
      by_cases hr : x = ')'
      · simp [allowedChar, hr]
      exfalso
      simp only [tokLoop, hd, hdot, hws, hp, hm, hs, hsl, hl, hr, Bool.false_eq_true,
        if_false] at h
      exact Option.noConfusion h
    · -- x in the tail : find the recursive call that succeeded
      by_cases hd : c.isDigit
      · simp only [tokLoop, hd, if_true] at h
        exact ih _ _ h x hx
      by_cases hdot : c = '.'
      · simp only [tokLoop, hd, hdot, Bool.false_eq_true, if_false, if_true] at h
        cases acc with
        | none => exact ih _ _ h x hx
        | some a =>
          by_cases hsd : a.sawDot = true
          · simp [hsd] at h
          · simp only [hsd, Bool.false_eq_true, if_false] at h
            exact ih _ _ h x hx
      by_cases hws : c.isWhitespace
      · simp only [tokLoop, hd, hdot, hws, Bool.false_eq_true, if_false, if_true] at h
        obtain ⟨ts2, hts2⟩ := withFlush_some _ _ _ h
        exact ih _ _ hts2 x hx
      by_cases hp : c = '+'
      · simp only [tokLoop, hd, hdot, hws, hp, Bool.false_eq_true, if_false, if_true] at h
        obtain ⟨ts2, hts2⟩ := withFlush_some _ _ _ h
        obtain ⟨ts3, hts3, _⟩ := Option.map_eq_some'.mp hts2
        exact ih _ _ hts3 x hx
      by_cases hm : c = '-'
      · simp only [tokLoop, hd, hdot, hws, hp, hm, Bool.false_eq_true, if_false, if_true] at h
        obtain ⟨ts2, hts2⟩ := withFlush_some _ _ _ h
        obtain ⟨ts3, hts3, _⟩ := Option.map_eq_some'.mp hts2
        exact ih _ _ hts3 x hx
      by_cases hs : c = '*'
      · simp only [tokLoop, hd, hdot, hws, hp, hm, hs, Bool.false_eq_true, if_false,
          if_true] at h
        obtain ⟨ts2, hts2⟩ := withFlush_some _ _ _ h
        obtain ⟨ts3, hts3, _⟩ := Option.map_eq_some'.mp hts2
        exact ih _ _ hts3 x hx
      by_cases hsl : c = '/'
      · simp only [tokLoop, hd, hdot, hws, hp, hm, hs, hsl, Bool.false_eq_true, if_false,
          if_true] at h
        obtain ⟨ts2, hts2⟩ := withFlush_some _ _ _ h
        obtain ⟨ts3, hts3, _⟩ := Option.map_eq_some'.mp hts2
        exact ih _ _ hts3 x hx
      by_cases hl : c = '('
      · simp only [tokLoop, hd, hdot, hws, hp, hm, hs, hsl, hl, Bool.false_eq_true, if_false,
          if_true] at h
        obtain ⟨ts2, hts2⟩ := withFlush_some _ _ _ h
        obtain ⟨ts3, hts3, _⟩ := Option.map_eq_some'.mp hts2
        exact ih _ _ hts3 x hx
      by_cases hr : c = ')'
      · simp only [tokLoop, hd, hdot, hws, hp, hm, hs, hsl, hl, hr, Bool.false_eq_true,
          if_false, if_true] at h
        obtain ⟨ts2, hts2⟩ := withFlush_some _ _ _ h
        obtain ⟨ts3, hts3, _⟩ := Option.map_eq_some'.mp hts2
        exact ih _ _ hts3 x hx
      exfalso
      simp only [tokLoop, hd, hdot, hws, hp, hm, hs, hsl, hl, hr, Bool.false_eq_true,
        if_false] at h
      exact Option.noConfusion h

lemma mem_dropWhile (P : Char → Bool) :
    ∀ (l : List Char) (c : Char), c ∈ l → P c = false → c ∈ l.dropWhile P := by
  intro l
  induction l with
  | nil => intro c hc _; simp at hc
  | cons a as ih =>
    intro c hc hPc
    by_cases hPa : P a = true
    · simp only [List.dropWhile_cons, hPa, if_true]
      rcases List.mem_cons.mp hc with rfl | hc
      · rw [hPc] at hPa; simp at hPa
      · exact ih c hc hPc
    · simp only [List.dropWhile_cons, hPa, if_false]
      exact hc

lemma mem_pyStrip (l : List Char) (c : Char) (hc : c ∈ l) (hw : c.isWhitespace = false) :
    c ∈ pyStrip l := by
  rw [pyStrip]
  apply List.mem_reverse.mpr
  apply mem_dropWhile _ _ c _ hw
  apply List.mem_reverse.mpr
  exact mem_dropWhile _ _ c hc hw

lemma evaluate_reject (s : String) (c : Char) (hc : c ∈ s.data)
    (hbad : exprAlphabet c = false) : ∃ m, evaluate s = Except.error m := by
  simp only [exprAlphabet, Bool.or_eq_false_iff, decide_eq_false_iff_not] at hbad
  obtain ⟨⟨hallow, hx⟩, hdiv⟩ := hbad
  cases hres : evaluate s with
  | error m => exact ⟨m, rfl⟩
  | ok v =>
    exfalso
    have hsim : simple_eval (pyStrip (pyReplace s.data)) = Except.ok v := by
      rw [evaluate] at hres
      cases hse : simple_eval (pyStrip (pyReplace s.data)) with
      | ok w => rw [hse] at hres; injection hres with h1; rw [h1]
      | error m => rw [hse] at hres; cases hres
    have htok : ∃ ts, tokenize (pyStrip (pyReplace s.data)) = some ts := by
      rw [simple_eval] at hsim
      cases htk : tokenize (pyStrip (pyReplace s.data)) with
      | none => rw [htk] at hsim; cases hsim
      | some ts => exact ⟨ts, rfl⟩
    obtain ⟨ts, hts⟩ := htok
    have hcr : replaceChar c = c := by simp [replaceChar, hx, hdiv]
    have hc1 : c ∈ pyReplace s.data := by
      rw [pyReplace, ← hcr]
      exact List.mem_map_of_mem replaceChar hc
    have hnw : c.isWhitespace = false := by
      by_contra hw
      simp only [Bool.not_eq_false] at hw
      have : allowedChar c = true := by simp [allowedChar, hw]
      rw [this] at hallow
      exact Bool.noConfusion hallow
    have hc2 : c ∈ pyStrip (pyReplace s.data) := mem_pyStrip _ c hc1 hnw
    have := tokLoop_allowed _ none ts hts c hc2
    rw [this] at hallow
    exact Bool.noConfusion hallow

lemma dedup_length_iff {v : List Int} (h : v.length = 6) :
    v.dedup.length = 6 ↔ v.Nodup := by
  constructor
  · intro h1
    have hs := List.dedup_sublist v
    have heq : v.dedup = v := hs.eq_of_length (by omega)
    rw [← heq]
    exact List.nodup_dedup v
  · intro h2
    rw [List.Nodup.dedup h2, h]

lemma exceptBind_ok {e a b : Type} (x : a) (f : a → Except e b) :
    (Except.ok x).bind f = f x := rfl

lemma exceptBind_error {e a b : Type} (err : e) (f : a → Except e b) :
    (Except.error err : Except e a).bind f = Except.error err := rfl

lemma validate_numbers_ok_iff (v : List Int) (l : List Int) (h6 : v.length = 6) :
    validate_numbers v = Except.ok l ↔
      (∀ n ∈ v, 1 ≤ n ∧ n ≤ 49) ∧ v.Nodup ∧ l = v.insertionSort (· ≤ ·) := by
  rw [validate_numbers]
  by_cases h3 : ∀ n ∈ v, 1 ≤ n ∧ n ≤ 49
  · rw [if_pos (by rw [List.all_eq_true]; intro n hn; exact decide_eq_true (h3 n hn))]
    by_cases h4 : v.Nodup
    · rw [if_pos ((dedup_length_iff h6).mpr h4)]
      constructor
      · intro he
        injection he with he2
        exact ⟨h3, h4, he2.symm⟩
      · rintro ⟨_, _, rfl⟩
        rfl
    · rw [if_neg (fun hh => h4 ((dedup_length_iff h6).mp hh))]
      simp [h4]
  · rw [if_neg ?hc]
    case hc =>
      intro hb
      rw [List.all_eq_true] at hb
      exact h3 (fun n hn => of_decide_eq_true (hb n hn))
    simp [h3]

lemma construct_ok_iff (dn : Int) (d : PyDate) (nums : List Int) (b : Int)
    (r : MarkSixResult) :
    construct dn d nums b = Except.ok r ↔
      0 < dn ∧ nums.length = 6 ∧ (∀ n ∈ nums, 1 ≤ n ∧ n ≤ 49) ∧ nums.Nodup ∧
        (1 ≤ b ∧ b ≤ 49) ∧ b ∉ nums ∧
        r = ⟨dn, d, nums.insertionSort (· ≤ ·), b⟩ := by
  rw [construct]
  by_cases h1 : 0 < dn
  case neg => rw [if_neg h1]; simp [h1]
  rw [if_pos h1]
  by_cases h2 : nums.length = 6
  case neg => rw [if_neg h2]; simp [h2]
  rw [if_pos h2]
  cases hv : validate_numbers nums with
  | error e =>
    rw [exceptBind_error]
    constructor
    · intro he
      exact Except.noConfusion he
    · rintro ⟨_, _, h3, h4, _, _, _⟩
      have hok := (validate_numbers_ok_iff nums (nums.insertionSort (· ≤ ·)) h2).mpr
        ⟨h3, h4, rfl⟩
      rw [hv] at hok
      exact Except.noConfusion hok
  | ok s =>
    obtain ⟨h3, h4, rfl⟩ := (validate_numbers_ok_iff nums s h2).mp hv
    rw [exceptBind_ok]
    by_cases h5 : 1 ≤ b ∧ b ≤ 49
    case neg => rw [if_neg h5]; simp [h5]
    rw [if_pos h5]
    by_cases h6 : b ∈ nums.insertionSort (· ≤ ·)
    · rw [if_pos h6]
      have h6b : b ∈ nums := (List.mem_insertionSort _).mp h6
      simp [h6b]
    · rw [if_neg h6]
      have h6b : b ∉ nums := fun hb => h6 ((List.mem_insertionSort _).mpr hb)
      constructor
      · intro he
        injection he with he2
        exact ⟨h1, h2, h3, h4, h5, h6b, he2.symm⟩
      · rintro ⟨_, _, _, _, _, _, rfl⟩
        rfl

lemma validate_numbers_error (v : List Int) (e : MSError) (h6 : v.length = 6)
    (h : validate_numbers v = Except.error e) :
    (¬ (∀ n ∈ v, 1 ≤ n ∧ n ≤ 49) ∧ e = MSError.numbersOutOfRange) ∨
      ((∀ n ∈ v, 1 ≤ n ∧ n ≤ 49) ∧ ¬ v.Nodup ∧ e = MSError.numbersNotUnique) := by
  rw [validate_numbers] at h
  by_cases h3 : ∀ n ∈ v, 1 ≤ n ∧ n ≤ 49
  · rw [if_pos (by rw [List.all_eq_true]; intro n hn; exact decide_eq_true (h3 n hn))] at h
    by_cases h4 : v.Nodup
    · rw [if_pos ((dedup_length_iff h6).mpr h4)] at h
      exact Except.noConfusion h
    · rw [if_neg (fun hh => h4 ((dedup_length_iff h6).mp hh))] at h
      injection h with h2
      exact Or.inr ⟨h3, h4, h2.symm⟩
  · rw [if_neg ?hc] at h
    case hc =>
      intro hb
      rw [List.all_eq_true] at hb
      exact h3 (fun n hn => of_decide_eq_true (hb n hn))
    injection h with h2
    exact Or.inl ⟨h3, h2.symm⟩

lemma construct_error_first (dn : Int) (d : PyDate) (nums : List Int) (b : Int) (e : MSError)
    (h : construct dn d nums b = Except.error e) :
    firstFailingRule dn nums b = some e := by
  rw [construct] at h
  rw [firstFailingRule]
  by_cases h1 : 0 < dn
  case neg =>
    rw [if_neg h1] at h
    injection h with h2
    rw [if_pos h1, h2]
  rw [if_pos h1] at h
  rw [if_neg (not_not_intro h1)]
  by_cases h2 : nums.length = 6
  case neg =>
    rw [if_neg h2] at h
    injection h with h3
    rw [if_pos h2, h3]
  rw [if_pos h2] at h
  rw [if_neg (not_not_intro h2)]
  cases hv : validate_numbers nums with
  | error e2 =>
    rw [hv, exceptBind_error] at h
    injection h with he2
    subst he2
    rcases validate_numbers_error nums e2 h2 hv with ⟨h3, rfl⟩ | ⟨h3, h4, rfl⟩
    · rw [if_pos h3]
    · rw [if_neg (not_not_intro h3), if_pos h4]
  | ok s =>
    obtain ⟨h3, h4, rfl⟩ := (validate_numbers_ok_iff nums s h2).mp hv
    rw [hv, exceptBind_ok] at h
    rw [if_neg (not_not_intro h3), if_neg (not_not_intro h4)]
    by_cases h5 : 1 ≤ b ∧ b ≤ 49
    case neg =>
      rw [if_neg h5] at h
      injection h with h6
      rw [if_pos h5, h6]
    rw [if_pos h5] at h
    rw [if_neg (not_not_intro h5)]
    by_cases h6 : b ∈ nums.insertionSort (· ≤ ·)
    · rw [if_pos h6] at h
      injection h with h7
      rw [if_pos ((List.mem_insertionSort _).mp h6), h7]
    · rw [if_neg h6] at h
      exact Except.noConfusion h

lemma construct_succeeds_iff (dn : Int) (d : PyDate) (nums : List Int) (b : Int) :
    (∃ r, construct dn d nums b = Except.ok r) ↔
      0 < dn ∧ nums.length = 6 ∧ (∀ n ∈ nums, 1 ≤ n ∧ n ≤ 49) ∧ nums.Nodup ∧
        (1 ≤ b ∧ b ≤ 49) ∧ b ∉ nums := by
  constructor
  · rintro ⟨r, hr⟩
    obtain ⟨h1, h2, h3, h4, h5, h6, _⟩ := (construct_ok_iff dn d nums b r).mp hr
    exact ⟨h1, h2, h3, h4, h5, h6⟩
  · rintro ⟨h1, h2, h3, h4, h5, h6⟩
    exact ⟨_, (construct_ok_iff dn d nums b _).mpr ⟨h1, h2, h3, h4, h5, h6, rfl⟩⟩

lemma ppA_head (p : PExpr) :
    (∃ l, ppA p = Tok.lparen :: l) ∨ ∃ q, ppA p = [Tok.num q] := by
  cases p <;> simp [ppA]

lemma ppP_head (p : PExpr) :
    (∃ l, ppP p = Tok.lparen :: l) ∨ ∃ q l, ppP p = Tok.num q :: l := by
  cases p with
  | pow a b =>
    rcases ppA_head a with ⟨l, hl⟩ | ⟨q, hl⟩
    · exact Or.inl ⟨l ++ Tok.star :: Tok.star :: ppU b, by rw [ppP, hl]; rfl⟩
    · exact Or.inr ⟨q, Tok.star :: Tok.star :: ppU b, by rw [ppP, hl]; rfl⟩
  | num n => exact Or.inr ⟨n, [], by rw [ppP, ppA]⟩
  | neg a =>
    rcases ppA_head (PExpr.neg a) with ⟨l, hl⟩ | ⟨q, hl⟩
    · exact Or.inl ⟨l, by rw [ppP, hl]⟩
    · exact Or.inr ⟨q, [], by rw [ppP, hl]⟩
  | add a b =>
    rcases ppA_head (PExpr.add a b) with ⟨l, hl⟩ | ⟨q, hl⟩
    · exact Or.inl ⟨l, by rw [ppP, hl]⟩
    · exact Or.inr ⟨q, [], by rw [ppP, hl]⟩
  | sub a b =>
    rcases ppA_head (PExpr.sub a b) with ⟨l, hl⟩ | ⟨q, hl⟩
    · exact Or.inl ⟨l, by rw [ppP, hl]⟩
    · exact Or.inr ⟨q, [], by rw [ppP, hl]⟩
  | mul a b =>
    rcases ppA_head (PExpr.mul a b) with ⟨l, hl⟩ | ⟨q, hl⟩
    · exact Or.inl ⟨l, by rw [ppP, hl]⟩
    · exact Or.inr ⟨q, [], by rw [ppP, hl]⟩
  | div a b =>
    rcases ppA_head (PExpr.div a b) with ⟨l, hl⟩ | ⟨q, hl⟩
    · exact Or.inl ⟨l, by rw [ppP, hl]⟩
    · exact Or.inr ⟨q, [], by rw [ppP, hl]⟩

lemma ppU_head (p : PExpr) :
    (∃ l, ppU p = Tok.minus :: l) ∨ (∃ l, ppU p = Tok.lparen :: l) ∨
      ∃ q l, ppU p = Tok.num q :: l := by
  cases p with
  | neg a => exact Or.inl ⟨ppU a, by rw [ppU]⟩
  | num n =>
    rcases ppP_head (PExpr.num n) with ⟨l, hl⟩ | ⟨q, l, hl⟩
    · exact Or.inr (Or.inl ⟨l, by rw [ppU, hl]⟩)
    · exact Or.inr (Or.inr ⟨q, l, by rw [ppU, hl]⟩)
  | add a b =>
    rcases ppP_head (PExpr.add a b) with ⟨l, hl⟩ | ⟨q, l, hl⟩
    · exact Or.inr (Or.inl ⟨l, by rw [ppU, hl]⟩)
    · exact Or.inr (Or.inr ⟨q, l, by rw [ppU, hl]⟩)
  | sub a b =>
    rcases ppP_head (PExpr.sub a b) with ⟨l, hl⟩ | ⟨q, l, hl⟩
    · exact Or.inr (Or.inl ⟨l, by rw [ppU, hl]⟩)
    · exact Or.inr (Or.inr ⟨q, l, by rw [ppU, hl]⟩)
  | mul a b =>
    rcases ppP_head (PExpr.mul a b) with ⟨l, hl⟩ | ⟨q, l, hl⟩
    · exact Or.inr (Or.inl ⟨l, by rw [ppU, hl]⟩)
    · exact Or.inr (Or.inr ⟨q, l, by rw [ppU, hl]⟩)
  | div a b =>
    rcases ppP_head (PExpr.div a b) with ⟨l, hl⟩ | ⟨q, l, hl⟩
    · exact Or.inr (Or.inl ⟨l, by rw [ppU, hl]⟩)
    · exact Or.inr (Or.inr ⟨q, l, by rw [ppU, hl]⟩)
  | pow a b =>
    rcases ppP_head (PExpr.pow a b) with ⟨l, hl⟩ | ⟨q, l, hl⟩
    · exact Or.inr (Or.inl ⟨l, by rw [ppU, hl]⟩)
    · exact Or.inr (Or.inr ⟨q, l, by rw [ppU, hl]⟩)

lemma ppU_ne_nil (p : PExpr) : ppU p ≠ [] := by
  rcases ppU_head p with ⟨l, hl⟩ | ⟨l, hl⟩ | ⟨q, l, hl⟩ <;> rw [hl] <;> simp

lemma ppU_head_ne_star (p : PExpr) (r2 : List Tok) : ppU p ≠ Tok.star :: r2 := by
  rcases ppU_head p with ⟨l, hl⟩ | ⟨l, hl⟩ | ⟨q, l, hl⟩ <;> rw [hl] <;> simp

lemma ppT_head (p : PExpr) :
    (∃ l, ppT p = Tok.minus :: l) ∨ (∃ l, ppT p = Tok.lparen :: l) ∨
      ∃ q l, ppT p = Tok.num q :: l := by
  induction p with
  | mul a b iha _ =>
    rcases iha with ⟨l, hl⟩ | ⟨l, hl⟩ | ⟨q, l, hl⟩
    · exact Or.inl ⟨l ++ Tok.star :: ppU b, by rw [ppT, hl]; rfl⟩
    · exact Or.inr (Or.inl ⟨l ++ Tok.star :: ppU b, by rw [ppT, hl]; rfl⟩)
    · exact Or.inr (Or.inr ⟨q, l ++ Tok.star :: ppU b, by rw [ppT, hl]; rfl⟩)
  | div a b iha _ =>
    rcases iha with ⟨l, hl⟩ | ⟨l, hl⟩ | ⟨q, l, hl⟩
    · exact Or.inl ⟨l ++ Tok.slash :: ppU b, by rw [ppT, hl]; rfl⟩
    · exact Or.inr (Or.inl ⟨l ++ Tok.slash :: ppU b, by rw [ppT, hl]; rfl⟩)
    · exact Or.inr (Or.inr ⟨q, l ++ Tok.slash :: ppU b, by rw [ppT, hl]; rfl⟩)
  | num n =>
    have h := ppU_head (PExpr.num n)
    rw [show ppT (PExpr.num n) = ppU (PExpr.num n) from by rw [ppT]]
    exact h
  | neg a _ =>
    have h := ppU_head (PExpr.neg a)
    rw [show ppT (PExpr.neg a) = ppU (PExpr.neg a) from by rw [ppT]]
    exact h
  | add a b _ _ =>
    have h := ppU_head (PExpr.add a b)
    rw [show ppT (PExpr.add a b) = ppU (PExpr.add a b) from by rw [ppT]]
    exact h
  | sub a b _ _ =>
    have h := ppU_head (PExpr.sub a b)
    rw [show ppT (PExpr.sub a b) = ppU (PExpr.sub a b) from by rw [ppT]]
    exact h
  | pow a b _ _ =>
    have h := ppU_head (PExpr.pow a b)
    rw [show ppT (PExpr.pow a b) = ppU (PExpr.pow a b) from by rw [ppT]]
    exact h

lemma ppT_ne_star_cons (p : PExpr) (rest r2 : List Tok) :
    ppT p ++ rest ≠ Tok.star :: r2 := by
  rcases ppT_head p with ⟨l, hl⟩ | ⟨l, hl⟩ | ⟨q, l, hl⟩ <;> rw [hl] <;> simp

lemma ppA_composite (p : PExpr) (h : ∀ n : Nat, p ≠ PExpr.num n) :
    ppA p = Tok.lparen :: (ppE p ++ [Tok.rparen]) := by
  cases p with
  | num n => exact absurd rfl (h n)
  | neg a => rw [ppA, ppE, ppT, ppU]
  | add a b => rw [ppA, ppE]
  | sub a b => rw [ppA, ppE]
  | mul a b => rw [ppA, ppE, ppT]
  | div a b => rw [ppA, ppE, ppT]
  | pow a b => rw [ppA, ppE, ppT, ppU, ppP]

lemma eOpsToks_append (l1 l2 : List (Bool × PExpr)) :
    eOpsToks (l1 ++ l2) = eOpsToks l1 ++ eOpsToks l2 := by
  induction l1 with
  | nil => rfl
  | cons pr l1 ih => simp [eOpsToks, List.foldr_cons, List.append_assoc] at ih ⊢; rw [ih]

lemma tOpsToks_append (l1 l2 : List (Bool × PExpr)) :
    tOpsToks (l1 ++ l2) = tOpsToks l1 ++ tOpsToks l2 := by
  induction l1 with
  | nil => rfl
  | cons pr l1 ih => simp [tOpsToks, List.foldr_cons, List.append_assoc] at ih ⊢; rw [ih]

lemma eSpine_print (p : PExpr) :
    ppE p = ppT (eSpine p).1 ++ eOpsToks (eSpine p).2 := by
  induction p with
  | add a b iha _ =>
    rw [ppE, eSpine]
    rw [eOpsToks_append, ← List.append_assoc, ← iha]
    simp [eOpsToks]
  | sub a b iha _ =>
    rw [ppE, eSpine]
    rw [eOpsToks_append, ← List.append_assoc, ← iha]
    simp [eOpsToks]
  | num n => simp [ppE, eSpine, eOpsToks]
  | neg a _ => simp [ppE, eSpine, eOpsToks]
  | mul a b _ _ => simp [ppE, eSpine, eOpsToks]
  | div a b _ _ => simp [ppE, eSpine, eOpsToks]
  | pow a b _ _ => simp [ppE, eSpine, eOpsToks]

lemma tSpine_print (p : PExpr) :
    ppT p = ppU (tSpine p).1 ++ tOpsToks (tSpine p).2 := by
  induction p with
  | mul a b iha _ =>
    rw [ppT, tSpine]
    rw [tOpsToks_append, ← List.append_assoc, ← iha]
    simp [tOpsToks]
  | div a b iha _ =>
    rw [ppT, tSpine]
    rw [tOpsToks_append, ← List.append_assoc, ← iha]
    simp [tOpsToks]
  | num n => simp [ppT, tSpine, tOpsToks]
  | neg a _ => simp [ppT, tSpine, tOpsToks]
  | add a b _ _ => simp [ppT, tSpine, tOpsToks]
  | sub a b _ _ => simp [ppT, tSpine, tOpsToks]
  | pow a b _ _ => simp [ppT, tSpine, tOpsToks]

lemma foldE_spine (p : PExpr) :
    foldE ((eSpine p).1).embed (eSpine p).2 = p.embed := by
  induction p with
  | add a b iha _ =>
    rw [eSpine, PExpr.embed]
    show foldE _ ((eSpine a).2 ++ [(true, b)]) = _
    rw [foldE, List.foldl_append]
    have := iha
    rw [foldE] at this
    rw [this]
    rfl
  | sub a b iha _ =>
    rw [eSpine, PExpr.embed]
    show foldE _ ((eSpine a).2 ++ [(false, b)]) = _
    rw [foldE, List.foldl_append]
    have := iha
    rw [foldE] at this
    rw [this]
    rfl
  | num n => rfl
  | neg a _ => rfl
  | mul a b _ _ => rfl
  | div a b _ _ => rfl
  | pow a b _ _ => rfl

lemma foldT_spine (p : PExpr) :
    foldT ((tSpine p).1).embed (tSpine p).2 = p.embed := by
  induction p with
  | mul a b iha _ =>
    rw [tSpine, PExpr.embed]
    show foldT _ ((tSpine a).2 ++ [(true, b)]) = _
    rw [foldT, List.foldl_append]
    have := iha
    rw [foldT] at this
    rw [this]
    rfl
  | div a b iha _ =>
    rw [tSpine, PExpr.embed]
    show foldT _ ((tSpine a).2 ++ [(false, b)]) = _
    rw [foldT, List.foldl_append]
    have := iha
    rw [foldT] at this
    rw [this]
    rfl
  | num n => rfl
  | neg a _ => rfl
  | add a b _ _ => rfl
  | sub a b _ _ => rfl
  | pow a b _ _ => rfl

lemma noMulHead_eOps (ops : List (Bool × PExpr)) (rest : List Tok)
    (h : noMulHead rest) : noMulHead (eOpsToks ops ++ rest) := by
  cases ops with
  | nil => exact h
  | cons pr ops =>
    show noMulHead (((if pr.1 then Tok.plus else Tok.minus) :: (ppT pr.2 ++ eOpsToks ops)) ++ rest)
    cases pr.1 <;> exact ⟨by simp, by simp⟩

lemma noPowHead_tOps (ops : List (Bool × PExpr)) (rest : List Tok)
    (h : noPowHead rest) : noPowHead (tOpsToks ops ++ rest) := by
  cases ops with
  | nil => exact h
  | cons pr ops =>
    show noPowHead (((if pr.1 then Tok.star else Tok.slash) :: (ppU pr.2 ++ tOpsToks ops)) ++ rest)
    cases hb : pr.1
    · intro r2 hr
      simp at hr
    · intro r2 hr
      simp only [List.cons_append, List.cons.injEq] at hr
      have h2 : ppU pr.2 ++ (tOpsToks ops ++ rest) = Tok.star :: r2 := by
        have := hr.2
        rw [List.append_assoc] at this
        exact this
      rcases ppU_head pr.2 with ⟨l, hl⟩ | ⟨l, hl⟩ | ⟨q, l, hl⟩ <;> rw [hl] at h2 <;> simp at h2

lemma ppRound : ∀ f : Nat,
    (∀ (p : PExpr) (rest : List Tok), 5 * (ppA p).length ≤ f →
        parseAtom f (ppA p ++ rest) = some (p.embed, rest)) ∧
    (∀ (p : PExpr) (rest : List Tok), 5 * (ppP p).length + 1 ≤ f → noPowHead rest →
        parsePow f (ppP p ++ rest) = some (p.embed, rest)) ∧
    (∀ (p : PExpr) (rest : List Tok), 5 * (ppU p).length + 2 ≤ f → noPowHead rest →
        parseU f (ppU p ++ rest) = some (p.embed, rest)) ∧
    (∀ (ops : List (Bool × PExpr)) (e : Expr) (rest : List Tok),
        5 * (tOpsToks ops).length + 2 ≤ f → noMulHead rest →
        loopT f e (tOpsToks ops ++ rest) = some (foldT e ops, rest)) ∧
    (∀ (p : PExpr) (rest : List Tok), 5 * (ppT p).length + 3 ≤ f → noMulHead rest →
        parseT f (ppT p ++ rest) = some (p.embed, rest)) ∧
    (∀ (ops : List (Bool × PExpr)) (e : Expr) (rest : List Tok),
        5 * (eOpsToks ops).length + 2 ≤ f → noOpHead rest →
        loopE f e (eOpsToks ops ++ rest) = some (foldE e ops, rest)) ∧
    (∀ (p : PExpr) (rest : List Tok), 5 * (ppE p).length + 4 ≤ f → noOpHead rest →
        parseE f (ppE p ++ rest) = some (p.embed, rest)) := by
  intro f
  induction f using Nat.strong_induction_on with
  | _ f IH =>
  refine ⟨?_, ?_, ?_, ?_, ?_, ?_, ?_⟩
  -- parseAtom on ppA
  · intro p rest hlen
    by_cases hn : ∃ n, p = PExpr.num n
    · obtain ⟨n, rfl⟩ := hn
      rw [ppA] at hlen ⊢
      simp only [List.length_cons, List.length_nil] at hlen
      obtain ⟨g, rfl⟩ : ∃ g, f = g + 1 := ⟨f - 1, by omega⟩
      simp [parseAtom, PExpr.embed]
    · have hcomp := ppA_composite p (fun n h => hn ⟨n, h⟩)
      rw [hcomp] at hlen ⊢
      simp only [List.length_cons, List.length_append, List.length_nil] at hlen
      obtain ⟨g, rfl⟩ : ∃ g, f = g + 1 := ⟨f - 1, by omega⟩
      simp only [List.cons_append, List.append_assoc, List.singleton_append]
      exact parseAtom_lparen_step g _ _ _
        ((IH g (by omega)).2.2.2.2.2.2 p (Tok.rparen :: rest) (by omega)
          (by refine ⟨?_, ?_, ?_, ?_⟩ <;> simp))
  -- parsePow on ppP
  · intro p rest hlen hnp
    by_cases hpow : ∃ a b, p = PExpr.pow a b
    · obtain ⟨a, b, rfl⟩ := hpow
      rw [ppP] at hlen ⊢
      simp only [List.length_append, List.length_cons] at hlen
      obtain ⟨g, rfl⟩ : ∃ g, f = g + 1 := ⟨f - 1, by omega⟩
      simp only [List.append_assoc, List.cons_append]
      have h1 := (IH g (by omega)).1 a (Tok.star :: Tok.star :: (ppU b ++ rest)) (by omega)
      have h2 := (IH g (by omega)).2.2.1 b rest (by omega) hnp
      have h3 := parsePow_star_step g _ _ _ _ _ h1 h2
      rw [h3]
      simp [PExpr.embed]
    · have heq : ppP p = ppA p := by
        cases p with
        | pow a b => exact absurd ⟨a, b, rfl⟩ hpow
        | num n => rw [ppP]
        | neg a => rw [ppP]
        | add a b => rw [ppP]
        | sub a b => rw [ppP]
        | mul a b => rw [ppP]
        | div a b => rw [ppP]
      rw [heq] at hlen ⊢
      obtain ⟨g, rfl⟩ : ∃ g, f = g + 1 := ⟨f - 1, by omega⟩
      have hA := (IH g (by omega)).1 p rest (by omega)
      simp only [parsePow, hA]
      rcases rest with _ | ⟨t, r⟩
      · rfl
      · cases t <;> try rfl
        rcases r with _ | ⟨t2, r2⟩
        · rfl
        · cases t2 <;> try rfl
          exact absurd rfl (hnp r2)
  -- parseU on ppU
  · intro p rest hlen hnp
    by_cases hneg : ∃ a, p = PExpr.neg a
    · obtain ⟨a, rfl⟩ := hneg
      rw [ppU] at hlen ⊢
      simp only [List.length_cons] at hlen
      obtain ⟨g, rfl⟩ : ∃ g, f = g + 1 := ⟨f - 1, by omega⟩
      simp only [List.cons_append]
      have h1 := (IH g (by omega)).2.2.1 a rest (by omega) hnp
      have h2 := parseU_minus_step g _ _ _ h1
      rw [h2]
      simp [PExpr.embed]
    · have heq : ppU p = ppP p := by
        cases p with
        | neg a => exact absurd ⟨a, rfl⟩ hneg
        | num n => rw [ppU]
        | add a b => rw [ppU]
        | sub a b => rw [ppU]
        | mul a b => rw [ppU]
        | div a b => rw [ppU]
        | pow a b => rw [ppU]
      rw [heq] at hlen ⊢
      have hnm : (ppP p ++ rest).head? ≠ some Tok.minus := by
        rcases ppP_head p with ⟨l, hl⟩ | ⟨q, l, hl⟩ <;> rw [hl] <;> simp
      obtain ⟨g, rfl⟩ : ∃ g, f = g + 1 := ⟨f - 1, by omega⟩
      rw [parseU_nominus g _ hnm]
      exact (IH g (by omega)).2.1 p rest (by omega) hnp
  -- loopT on tOpsToks
  · intro ops e rest hlen hnm
    cases ops with
    | nil =>
      show loopT f e ([] ++ rest) = some (foldT e [], rest)
      rw [List.nil_append]
      exact loopT_stop f e rest (by omega) hnm.1 hnm.2
    | cons pr ops =>
      obtain ⟨bop, t⟩ := pr
      have hlen2 : 5 * (1 + (ppU t).length + (tOpsToks ops).length) + 2 ≤ f := by
        have : (tOpsToks ((bop, t) :: ops)).length =
            1 + (ppU t).length + (tOpsToks ops).length := by
          show ((if bop then Tok.star else Tok.slash) :: (ppU t ++ tOpsToks ops)).length = _
          cases bop <;> simp <;> omega
        rw [this] at hlen
        exact hlen
      obtain ⟨g, rfl⟩ : ∃ g, f = g + 1 := ⟨f - 1, by omega⟩
      have h1 := (IH g (by omega)).2.2.1 t (tOpsToks ops ++ rest) (by omega)
        (noPowHead_tOps ops rest (noPowHead_of_head rest hnm.1))
      cases bop
      · show loopT (g + 1) e ((Tok.slash :: (ppU t ++ tOpsToks ops)) ++ rest) = _
        have h2 := (IH g (by omega)).2.2.2.1 ops (Expr.div e t.embed) rest (by omega) hnm
        simp only [List.cons_append, List.append_assoc]
        rw [loopT_slash_step g e _ _ _ h1, h2]
        rfl
      · show loopT (g + 1) e ((Tok.star :: (ppU t ++ tOpsToks ops)) ++ rest) = _
        have h2 := (IH g (by omega)).2.2.2.1 ops (Expr.mul e t.embed) rest (by omega) hnm
        simp only [List.cons_append, List.append_assoc]
        rw [loopT_star_step g e _ _ _ h1, h2]
        rfl
  -- parseT on ppT
  · intro p rest hlen hnm
    have hsp := tSpine_print p
    rw [hsp] at hlen ⊢
    rw [List.length_append] at hlen
    obtain ⟨g, rfl⟩ : ∃ g, f = g + 1 := ⟨f - 1, by omega⟩
    simp only [List.append_assoc]
    have h1 := (IH g (by omega)).2.2.1 (tSpine p).1 (tOpsToks (tSpine p).2 ++ rest)
      (by omega) (noPowHead_tOps _ _ (noPowHead_of_head rest hnm.1))
    have h2 := (IH g (by omega)).2.2.2.1 (tSpine p).2 ((tSpine p).1).embed rest
      (by omega) hnm
    rw [parseT_step g _ _ _ h1, h2, foldT_spine]
  -- loopE on eOpsToks
  · intro ops e rest hlen hno
    cases ops with
    | nil =>
      show loopE f e ([] ++ rest) = some (foldE e [], rest)
      rw [List.nil_append]
      exact loopE_stop f e rest (by omega) hno.2.2.1 hno.2.2.2
    | cons pr ops =>
      obtain ⟨bop, t⟩ := pr
      have hlen2 : 5 * (1 + (ppT t).length + (eOpsToks ops).length) + 2 ≤ f := by
        have : (eOpsToks ((bop, t) :: ops)).length =
            1 + (ppT t).length + (eOpsToks ops).length := by
          show ((if bop then Tok.plus else Tok.minus) :: (ppT t ++ eOpsToks ops)).length = _
          cases bop <;> simp <;> omega
        rw [this] at hlen
        exact hlen
      obtain ⟨g, rfl⟩ : ∃ g, f = g + 1 := ⟨f - 1, by omega⟩
      have h1 := (IH g (by omega)).2.2.2.2.1 t (eOpsToks ops ++ rest) (by omega)
        (noMulHead_eOps ops rest ⟨hno.1, hno.2.1⟩)
      cases bop
      · show loopE (g + 1) e ((Tok.minus :: (ppT t ++ eOpsToks ops)) ++ rest) = _
        have h2 := (IH g (by omega)).2.2.2.2.2.1 ops (Expr.sub e t.embed) rest (by omega) hno
        simp only [List.cons_append, List.append_assoc]
        rw [loopE_minus_step g e _ _ _ h1, h2]
        rfl
      · show loopE (g + 1) e ((Tok.plus :: (ppT t ++ eOpsToks ops)) ++ rest) = _
        have h2 := (IH g (by omega)).2.2.2.2.2.1 ops (Expr.add e t.embed) rest (by omega) hno
        simp only [List.cons_append, List.append_assoc]
        rw [loopE_plus_step g e _ _ _ h1, h2]
        rfl
  -- parseE on ppE
  · intro p rest hlen hno
    have hsp := eSpine_print p
    rw [hsp] at hlen ⊢
    rw [List.length_append] at hlen
    obtain ⟨g, rfl⟩ : ∃ g, f = g + 1 := ⟨f - 1, by omega⟩
    simp only [List.append_assoc]
    have h1 := (IH g (by omega)).2.2.2.2.1 (eSpine p).1 (eOpsToks (eSpine p).2 ++ rest)
      (by omega) (noMulHead_eOps _ _ ⟨hno.1, hno.2.1⟩)
    have h2 := (IH g (by omega)).2.2.2.2.2.1 (eSpine p).2 ((eSpine p).1).embed rest
      (by omega) hno
    rw [parseE_step g _ _ _ h1, h2, foldE_spine]


lemma sepOK_cons_iff (t : Tok) (ts : List Tok) :
    sepOK (t :: ts) ↔
      (∀ t2, ts.head? = some t2 → ¬ (isNumTok t ∧ isNumTok t2)) ∧ sepOK ts := by
  cases ts with
  | nil =>
    constructor
    · intro _
      exact ⟨fun t2 h => by simp at h, trivial⟩
    · intro _
      trivial
  | cons t2 r =>
    show (¬ (isNumTok t ∧ isNumTok t2) ∧ sepOK (t2 :: r)) ↔ _
    constructor
    · rintro ⟨h1, h2⟩
      refine ⟨fun t3 ht3 => ?_, h2⟩
      simp only [List.head?_cons, Option.some.injEq] at ht3
      subst ht3
      exact h1
    · rintro ⟨h1, h2⟩
      exact ⟨h1 t2 rfl, h2⟩

lemma sepOK_cons_nonnum (t : Tok) (ts : List Tok) (h : ¬ isNumTok t) (hts : sepOK ts) :
    sepOK (t :: ts) := (sepOK_cons_iff t ts).mpr ⟨fun _ _ hc => h hc.1, hts⟩

lemma sepOK_append_nonnum (a b : List Tok) (ha : sepOK a) (hb : sepOK b)
    (hh : ∀ t, b.head? = some t → ¬ isNumTok t) : sepOK (a ++ b) := by
  induction a with
  | nil => exact hb
  | cons t a ih =>
    have ha' := (sepOK_cons_iff t a).mp ha
    rw [List.cons_append, sepOK_cons_iff]
    refine ⟨?_, ih ha'.2⟩
    intro t2 ht2
    cases a with
    | nil =>
      simp only [List.nil_append] at ht2
      exact fun hc => hh t2 ht2 hc.2
    | cons t3 r =>
      simp only [List.cons_append, List.head?_cons, Option.some.injEq] at ht2
      subst ht2
      exact ha'.1 _ rfl

lemma sepOK_op_append (x y : List Tok) (t : Tok) (ht : ¬ isNumTok t)
    (hx : sepOK x) (hy : sepOK y) : sepOK (x ++ t :: y) :=
  sepOK_append_nonnum x (t :: y) hx (sepOK_cons_nonnum t y ht hy)
    (fun t2 ht2 => by
      simp only [List.head?_cons, Option.some.injEq] at ht2
      subst ht2
      exact ht)

lemma sepOK_paren (x : List Tok) (hx : sepOK x) :
    sepOK (Tok.lparen :: (x ++ [Tok.rparen])) :=
  sepOK_cons_nonnum _ _ (fun h => h)
    (sepOK_append_nonnum x [Tok.rparen] hx trivial
      (fun t2 ht2 => by
        simp only [List.head?_cons, Option.some.injEq] at ht2
        subst ht2
        exact fun h => h))

lemma natVals_nil : natVals [] := fun _ hq => absurd hq (List.not_mem_nil _)

lemma natVals_append (a b : List Tok) (ha : natVals a) (hb : natVals b) :
    natVals (a ++ b) := by
  intro q hq
  rcases List.mem_append.mp hq with h | h
  · exact ha q h
  · exact hb q h

lemma natVals_cons_op (t : Tok) (ht : ∀ q : Rat, t ≠ Tok.num q) (ts : List Tok)
    (hts : natVals ts) : natVals (t :: ts) := by
  intro q hq
  rcases List.mem_cons.mp hq with h1 | h2
  · exact absurd h1.symm (ht q)
  · exact hts q h2

lemma natVals_op_append (x y : List Tok) (t : Tok) (ht : ∀ q : Rat, t ≠ Tok.num q)
    (hx : natVals x) (hy : natVals y) : natVals (x ++ t :: y) :=
  natVals_append _ _ hx (natVals_cons_op t ht y hy)

lemma natVals_paren (x : List Tok) (hx : natVals x) :
    natVals (Tok.lparen :: (x ++ [Tok.rparen])) :=
  natVals_cons_op _ (fun _ h => Tok.noConfusion h) _
    (natVals_append _ _ hx
      (natVals_cons_op _ (fun _ h => Tok.noConfusion h) _ natVals_nil))

lemma natVals_singleton_nat (n : Nat) : natVals [Tok.num (n : Rat)] := by
  intro q hq
  simp only [List.mem_singleton, Tok.num.injEq] at hq
  exact ⟨n, hq⟩

lemma sepOK_pp (p : PExpr) :
    sepOK (ppA p) ∧ sepOK (ppP p) ∧ sepOK (ppU p) ∧ sepOK (ppT p) ∧ sepOK (ppE p) := by
  induction p with
  | num n =>
    have hA : sepOK (ppA (PExpr.num n)) := by rw [ppA]; trivial
    have hP : sepOK (ppP (PExpr.num n)) := by rw [ppP]; exact hA
    have hU : sepOK (ppU (PExpr.num n)) := by rw [ppU]; exact hP
    have hT : sepOK (ppT (PExpr.num n)) := by rw [ppT]; exact hU
    have hE : sepOK (ppE (PExpr.num n)) := by rw [ppE]; exact hT
    exact ⟨hA, hP, hU, hT, hE⟩
  | neg a ih =>
    have hA : sepOK (ppA (PExpr.neg a)) := by
      rw [ppA]
      exact sepOK_paren _ (sepOK_cons_nonnum _ _ (fun h => h) ih.2.2.1)
    have hP : sepOK (ppP (PExpr.neg a)) := by rw [ppP]; exact hA
    have hU : sepOK (ppU (PExpr.neg a)) := by
      rw [ppU]
      exact sepOK_cons_nonnum _ _ (fun h => h) ih.2.2.1
    have hT : sepOK (ppT (PExpr.neg a)) := by rw [ppT]; exact hU
    have hE : sepOK (ppE (PExpr.neg a)) := by rw [ppE]; exact hT
    exact ⟨hA, hP, hU, hT, hE⟩
  | add a b iha ihb =>
    have hbody : sepOK (ppE a ++ Tok.plus :: ppT b) :=
      sepOK_op_append _ _ _ (fun h => h) iha.2.2.2.2 ihb.2.2.2.1
    have hA : sepOK (ppA (PExpr.add a b)) := by rw [ppA]; exact sepOK_paren _ hbody
    have hP : sepOK (ppP (PExpr.add a b)) := by rw [ppP]; exact hA
    have hU : sepOK (ppU (PExpr.add a b)) := by rw [ppU]; exact hP
    have hT : sepOK (ppT (PExpr.add a b)) := by rw [ppT]; exact hU
    have hE : sepOK (ppE (PExpr.add a b)) := by rw [ppE]; exact hbody
    exact ⟨hA, hP, hU, hT, hE⟩
  | sub a b iha ihb =>
    have hbody : sepOK (ppE a ++ Tok.minus :: ppT b) :=
      sepOK_op_append _ _ _ (fun h => h) iha.2.2.2.2 ihb.2.2.2.1
    have hA : sepOK (ppA (PExpr.sub a b)) := by rw [ppA]; exact sepOK_paren _ hbody
    have hP : sepOK (ppP (PExpr.sub a b)) := by rw [ppP]; exact hA
    have hU : sepOK (ppU (PExpr.sub a b)) := by rw [ppU]; exact hP
    have hT : sepOK (ppT (PExpr.sub a b)) := by rw [ppT]; exact hU
    have hE : sepOK (ppE (PExpr.sub a b)) := by rw [ppE]; exact hbody
    exact ⟨hA, hP, hU, hT, hE⟩
  | mul a b iha ihb =>
    have hbody : sepOK (ppT a ++ Tok.star :: ppU b) :=
      sepOK_op_append _ _ _ (fun h => h) iha.2.2.2.1 ihb.2.2.1
    have hA : sepOK (ppA (PExpr.mul a b)) := by rw [ppA]; exact sepOK_paren _ hbody
    have hP : sepOK (ppP (PExpr.mul a b)) := by rw [ppP]; exact hA
    have hU : sepOK (ppU (PExpr.mul a b)) := by rw [ppU]; exact hP
    have hT : sepOK (ppT (PExpr.mul a b)) := by rw [ppT]; exact hbody
    have hE : sepOK (ppE (PExpr.mul a b)) := by rw [ppE]; exact hT
    exact ⟨hA, hP, hU, hT, hE⟩
  | div a b iha ihb =>
    have hbody : sepOK (ppT a ++ Tok.slash :: ppU b) :=
      sepOK_op_append _ _ _ (fun h => h) iha.2.2.2.1 ihb.2.2.1
    have hA : sepOK (ppA (PExpr.div a b)) := by rw [ppA]; exact sepOK_paren _ hbody
    have hP : sepOK (ppP (PExpr.div a b)) := by rw [ppP]; exact hA
    have hU : sepOK (ppU (PExpr.div a b)) := by rw [ppU]; exact hP
    have hT : sepOK (ppT (PExpr.div a b)) := by rw [ppT]; exact hbody
    have hE : sepOK (ppE (PExpr.div a b)) := by rw [ppE]; exact hT
    exact ⟨hA, hP, hU, hT, hE⟩
  | pow a b iha ihb =>
    have hbody : sepOK (ppA a ++ Tok.star :: Tok.star :: ppU b) :=
      sepOK_op_append _ _ _ (fun h => h) iha.1
        (sepOK_cons_nonnum _ _ (fun h => h) ihb.2.2.1)
    have hA : sepOK (ppA (PExpr.pow a b)) := by rw [ppA]; exact sepOK_paren _ hbody
    have hP : sepOK (ppP (PExpr.pow a b)) := by rw [ppP]; exact hbody
    have hU : sepOK (ppU (PExpr.pow a b)) := by rw [ppU]; exact hP
    have hT : sepOK (ppT (PExpr.pow a b)) := by rw [ppT]; exact hU
    have hE : sepOK (ppE (PExpr.pow a b)) := by rw [ppE]; exact hT
    exact ⟨hA, hP, hU, hT, hE⟩

lemma natVals_pp (p : PExpr) :
    natVals (ppA p) ∧ natVals (ppP p) ∧ natVals (ppU p) ∧ natVals (ppT p) ∧
      natVals (ppE p) := by
  induction p with
  | num n =>
    have hA : natVals (ppA (PExpr.num n)) := by rw [ppA]; exact natVals_singleton_nat n
    have hP : natVals (ppP (PExpr.num n)) := by rw [ppP]; exact hA
    have hU : natVals (ppU (PExpr.num n)) := by rw [ppU]; exact hP
    have hT : natVals (ppT (PExpr.num n)) := by rw [ppT]; exact hU
    have hE : natVals (ppE (PExpr.num n)) := by rw [ppE]; exact hT
    exact ⟨hA, hP, hU, hT, hE⟩
  | neg a ih =>
    have hA : natVals (ppA (PExpr.neg a)) := by
      rw [ppA]
      exact natVals_paren _ (natVals_cons_op _ (fun _ h => Tok.noConfusion h) _ ih.2.2.1)
    have hP : natVals (ppP (PExpr.neg a)) := by rw [ppP]; exact hA
    have hU : natVals (ppU (PExpr.neg a)) := by
      rw [ppU]
      exact natVals_cons_op _ (fun _ h => Tok.noConfusion h) _ ih.2.2.1
    have hT : natVals (ppT (PExpr.neg a)) := by rw [ppT]; exact hU
    have hE : natVals (ppE (PExpr.neg a)) := by rw [ppE]; exact hT
    exact ⟨hA, hP, hU, hT, hE⟩
  | add a b iha ihb =>
    have hbody : natVals (ppE a ++ Tok.plus :: ppT b) :=
      natVals_op_append _ _ _ (fun _ h => Tok.noConfusion h) iha.2.2.2.2 ihb.2.2.2.1
    have hA : natVals (ppA (PExpr.add a b)) := by rw [ppA]; exact natVals_paren _ hbody
    have hP : natVals (ppP (PExpr.add a b)) := by rw [ppP]; exact hA
    have hU : natVals (ppU (PExpr.add a b)) := by rw [ppU]; exact hP
    have hT : natVals (ppT (PExpr.add a b)) := by rw [ppT]; exact hU
    have hE : natVals (ppE (PExpr.add a b)) := by rw [ppE]; exact hbody
    exact ⟨hA, hP, hU, hT, hE⟩
  | sub a b iha ihb =>
    have hbody : natVals (ppE a ++ Tok.minus :: ppT b) :=
      natVals_op_append _ _ _ (fun _ h => Tok.noConfusion h) iha.2.2.2.2 ihb.2.2.2.1
    have hA : natVals (ppA (PExpr.sub a b)) := by rw [ppA]; exact natVals_paren _ hbody
    have hP : natVals (ppP (PExpr.sub a b)) := by rw [ppP]; exact hA
    have hU : natVals (ppU (PExpr.sub a b)) := by rw [ppU]; exact hP
    have hT : natVals (ppT (PExpr.sub a b)) := by rw [ppT]; exact hU
    have hE : natVals (ppE (PExpr.sub a b)) := by rw [ppE]; exact hbody
    exact ⟨hA, hP, hU, hT, hE⟩
  | mul a b iha ihb =>
    have hbody : natVals (ppT a ++ Tok.star :: ppU b) :=
      natVals_op_append _ _ _ (fun _ h => Tok.noConfusion h) iha.2.2.2.1 ihb.2.2.1
    have hA : natVals (ppA (PExpr.mul a b)) := by rw [ppA]; exact natVals_paren _ hbody
    have hP : natVals (ppP (PExpr.mul a b)) := by rw [ppP]; exact hA
    have hU : natVals (ppU (PExpr.mul a b)) := by rw [ppU]; exact hP
    have hT : natVals (ppT (PExpr.mul a b)) := by rw [ppT]; exact hbody
    have hE : natVals (ppE (PExpr.mul a b)) := by rw [ppE]; exact hT
    exact ⟨hA, hP, hU, hT, hE⟩
  | div a b iha ihb =>
    have hbody : natVals (ppT a ++ Tok.slash :: ppU b) :=
      natVals_op_append _ _ _ (fun _ h => Tok.noConfusion h) iha.2.2.2.1 ihb.2.2.1
    have hA : natVals (ppA (PExpr.div a b)) := by rw [ppA]; exact natVals_paren _ hbody
    have hP : natVals (ppP (PExpr.div a b)) := by rw [ppP]; exact hA
    have hU : natVals (ppU (PExpr.div a b)) := by rw [ppU]; exact hP
    have hT : natVals (ppT (PExpr.div a b)) := by rw [ppT]; exact hbody
    have hE : natVals (ppE (PExpr.div a b)) := by rw [ppE]; exact hT
    exact ⟨hA, hP, hU, hT, hE⟩
  | pow a b iha ihb =>
    have hbody : natVals (ppA a ++ Tok.star :: Tok.star :: ppU b) :=
      natVals_op_append _ _ _ (fun _ h => Tok.noConfusion h) iha.1
        (natVals_cons_op _ (fun _ h => Tok.noConfusion h) _ ihb.2.2.1)
    have hA : natVals (ppA (PExpr.pow a b)) := by rw [ppA]; exact natVals_paren _ hbody
    have hP : natVals (ppP (PExpr.pow a b)) := by rw [ppP]; exact hbody
    have hU : natVals (ppU (PExpr.pow a b)) := by rw [ppU]; exact hP
    have hT : natVals (ppT (PExpr.pow a b)) := by rw [ppT]; exact hU
    have hE : natVals (ppE (PExpr.pow a b)) := by rw [ppE]; exact hT
    exact ⟨hA, hP, hU, hT, hE⟩


lemma renderToks_cons (t : Tok) (ts : List Tok) :
    renderToks (t :: ts) = renderTok t ++ renderToks ts := rfl

lemma renderTok_headOK (t : Tok) (h : ¬ isNumTok t) (cs : List Char) :
    charHeadOK (renderTok t ++ cs) := by
  cases t with
  | num q => exact absurd trivial h
  | plus => exact Or.inr ⟨'+', cs, by simp [renderTok], by decide, by decide⟩
  | minus => exact Or.inr ⟨'-', cs, by simp [renderTok], by decide, by decide⟩
  | star => exact Or.inr ⟨'*', cs, by simp [renderTok], by decide, by decide⟩
  | slash => exact Or.inr ⟨'/', cs, by simp [renderTok], by decide, by decide⟩
  | lparen => exact Or.inr ⟨'(', cs, by simp [renderTok], by decide, by decide⟩
  | rparen => exact Or.inr ⟨')', cs, by simp [renderTok], by decide, by decide⟩

lemma tokLoop_render : ∀ ts : List Tok, sepOK ts → natVals ts →
    ∀ rest : List Char, charHeadOK rest →
    tokLoop (renderToks ts ++ rest) none = (tokLoop rest none).map (fun l => ts ++ l) := by
  intro ts
  induction ts with
  | nil =>
    intro _ _ rest _
    show tokLoop ([] ++ rest) none = _
    rw [List.nil_append]
    cases tokLoop rest none <;> rfl
  | cons t ts ih =>
    intro hsep hnv rest hrest
    have hsep' := (sepOK_cons_iff t ts).mp hsep
    have hnv' : natVals ts := fun q hq => hnv q (List.mem_cons_of_mem t hq)
    cases t with
    | num q =>
      obtain ⟨n, rfl⟩ := hnv _ (List.mem_cons_self _ _)
      have hnum : ((n : Rat)).num.toNat = n := by simp
      have hhead : charHeadOK (renderToks ts ++ rest) := by
        cases ts with
        | nil =>
          show charHeadOK ([] ++ rest)
          rw [List.nil_append]
          exact hrest
        | cons t2 ts2 =>
          rw [renderToks_cons, List.append_assoc]
          refine renderTok_headOK t2 ?_ _
          intro hn2
          exact hsep'.1 t2 rfl ⟨trivial, hn2⟩
      rw [renderToks_cons, List.append_assoc, renderTok, hnum,
        tokLoop_print_num n _ hhead, ih hsep'.2 hnv' rest hrest, Option.map_map]
      rfl
    | plus =>
      rw [renderToks_cons, List.append_assoc, renderTok, List.singleton_append,
        tokLoop_plus, ih hsep'.2 hnv' rest hrest, Option.map_map]
      rfl
    | minus =>
      rw [renderToks_cons, List.append_assoc, renderTok, List.singleton_append,
        tokLoop_minus, ih hsep'.2 hnv' rest hrest, Option.map_map]
      rfl
    | star =>
      rw [renderToks_cons, List.append_assoc, renderTok, List.singleton_append,
        tokLoop_star, ih hsep'.2 hnv' rest hrest, Option.map_map]
      rfl
    | slash =>
      rw [renderToks_cons, List.append_assoc, renderTok, List.singleton_append,
        tokLoop_slash, ih hsep'.2 hnv' rest hrest, Option.map_map]
      rfl
    | lparen =>
      rw [renderToks_cons, List.append_assoc, renderTok, List.singleton_append,
        tokLoop_lparen, ih hsep'.2 hnv' rest hrest, Option.map_map]
      rfl
    | rparen =>
      rw [renderToks_cons, List.append_assoc, renderTok, List.singleton_append,
        tokLoop_rparen, ih hsep'.2 hnv' rest hrest, Option.map_map]
      rfl

lemma tokenize_render (ts : List Tok) (h1 : sepOK ts) (h2 : natVals ts) :
    tokenize (renderToks ts) = some ts := by
  have h := tokLoop_render ts h1 h2 [] (Or.inl rfl)
  rw [List.append_nil] at h
  rw [tokenize, h]
  simp [tokLoop, withFlush]

lemma noOpHead_nil : noOpHead [] := by
  refine ⟨?_, ?_, ?_, ?_⟩ <;> simp

lemma parseExpr_ppE (p : PExpr) : parseExpr (ppE p) = some p.embed := by
  have h := (ppRound (10 * (ppE p).length + 10)).2.2.2.2.2.2 p [] (by omega) noOpHead_nil
  rw [List.append_nil] at h
  rw [parseExpr, h]

lemma simple_eval_printMin (p : PExpr) :
    simple_eval (renderToks (ppE p)) = evalAst p.embed := by
  rw [simple_eval, tokenize_render _ (sepOK_pp p).2.2.2.2 (natVals_pp p).2.2.2.2]
  show (match parseExpr (ppE p) with
    | none => Except.error "invalid syntax"
    | some e => evalAst e) = _
  rw [parseExpr_ppE]

lemma renderTok_good (t : Tok) : ∀ c ∈ renderTok t, goodChar c = true := by
  cases t with
  | num q =>
    intro c hc
    have hd := natDigs_all_digit _ c hc
    simp [goodChar, hd]
  | plus => intro c hc; simp [renderTok] at hc; subst hc; decide
  | minus => intro c hc; simp [renderTok] at hc; subst hc; decide
  | star => intro c hc; simp [renderTok] at hc; subst hc; decide
  | slash => intro c hc; simp [renderTok] at hc; subst hc; decide
  | lparen => intro c hc; simp [renderTok] at hc; subst hc; decide
  | rparen => intro c hc; simp [renderTok] at hc; subst hc; decide

lemma renderToks_good (ts : List Tok) : ∀ c ∈ renderToks ts, goodChar c = true := by
  induction ts with
  | nil => intro c hc; simp [renderToks] at hc
  | cons t ts ih =>
    intro c hc
    rw [renderToks_cons] at hc
    rcases List.mem_append.mp hc with h | h
    · exact renderTok_good t c h
    · exact ih c h

lemma pyReplace_printMin (p : PExpr) :
    pyReplace (renderToks (ppE p)) = renderToks (ppE p) := by
  apply map_id_on
  intro c hc
  have hg := goodChar_ne_glyph c (renderToks_good _ c hc)
  simp [replaceChar, hg.1, hg.2]

lemma pyStrip_printMin (p : PExpr) :
    pyStrip (renderToks (ppE p)) = renderToks (ppE p) :=
  pyStrip_id_on _ (fun c hc => goodChar_not_ws c (renderToks_good _ c hc))

lemma evaluate_printMin (p : PExpr) :
    evaluate (printMin p) =
      match evalAst p.embed with
      | Except.ok v => Except.ok v
      | Except.error m =>
        Except.error ("Cannot evaluate expression: " ++ printMin p ++ ". Error: " ++ m) := by
  show (match simple_eval (pyStrip (pyReplace (renderToks (ppE p)))) with
    | Except.ok v => Except.ok v
    | Except.error m =>
      Except.error
        ("Cannot evaluate expression: " ++ String.mk (pyReplace (renderToks (ppE p))) ++
          ". Error: " ++ m)) = _
  rw [pyReplace_printMin, pyStrip_printMin, simple_eval_printMin]
  rfl

lemma evaluate_printMin_ok (p : PExpr) (v : Rat) (h : evalAst p.embed = Except.ok v) :
    evaluate (printMin p) = Except.ok v := by
  rw [evaluate_printMin, h]

/-- C1: for every syntactically valid arithmetic expression text over numeric
literals, `+ - * / **`, parentheses and unary minus, expression-mode
evaluation returns the mathematically correct value under standard operator
precedence (here: every printable expression of the grammar evaluates to the
value of its abstract syntax tree, both in fully parenthesized form and in
minimally parenthesized form, where precedence alone must disambiguate), and
in particular `evaluate "1-9" = -8`, `evaluate "(2+3)*(4-1)" = 15`,
`evaluate "2**3" = 8`, and `evaluate "2/4+3*5-1/2*7" = 12`. -/
theorem C1_expression_evaluation_correct :
    (∀ (p : PExpr) (v : Rat), evalAst p.embed = Except.ok v →
        evaluate (printStr p) = Except.ok v) ∧
      (∀ (p : PExpr) (v : Rat), evalAst p.embed = Except.ok v →
        evaluate (printMin p) = Except.ok v) ∧
      evaluate "1-9" = Except.ok (-8) ∧
      evaluate "(2+3)*(4-1)" = Except.ok 15 ∧
      evaluate "2**3" = Except.ok 8 ∧
      evaluate "2/4+3*5-1/2*7" = Except.ok 12 := by
  refine ⟨fun p v h => evaluate_print_ok p v h,
    fun p v h => evaluate_printMin_ok p v h, ?_, ?_, ?_, ?_⟩ <;> decide

/-- Witness for C1 at the concrete expression `1-9`, in both printed forms. -/
theorem C1_witness :
    evalAst (PExpr.sub (PExpr.num 1) (PExpr.num 9)).embed = Except.ok (-8) ∧
      evaluate (printStr (PExpr.sub (PExpr.num 1) (PExpr.num 9))) = Except.ok (-8) ∧
      evaluate (printMin (PExpr.sub (PExpr.num 1) (PExpr.num 9))) = Except.ok (-8) :=
  ⟨by decide, C1_expression_evaluation_correct.1 (PExpr.sub (PExpr.num 1) (PExpr.num 9))
    (-8) (by decide),
    C1_expression_evaluation_correct.2.1 (PExpr.sub (PExpr.num 1) (PExpr.num 9))
    (-8) (by decide)⟩

/-- C2: every input containing a character outside the arithmetic alphabet —
as any identifier, name lookup, attribute access, assignment or call does —
is rejected by expression-mode evaluation with an error, never executed or
silently ignored; concrete instances: a name lookup, an attribute access
with a call, an assignment, and a call with a parenthesized callee. -/
theorem C2_rejects_non_arithmetic :
    (∀ (s : String) (c : Char), c ∈ s.data → exprAlphabet c = false →
        ∃ m, evaluate s = Except.error m) ∧
      evaluate "x" = Except.error "Cannot evaluate expression: x. Error: invalid syntax" ∧
      evaluate "a.b(1)" =
        Except.error "Cannot evaluate expression: a.b(1). Error: invalid syntax" ∧
      evaluate "x = 5" =
        Except.error "Cannot evaluate expression: x = 5. Error: invalid syntax" ∧
      evaluate "(1)(2)" =
        Except.error "Cannot evaluate expression: (1)(2). Error: invalid syntax" := by
  exact ⟨fun s c hc hb => evaluate_reject s c hc hb, by decide, by decide, by decide, by decide⟩

/-- Witness for C2 at the concrete input `1+x`. -/
theorem C2_witness :
    ('x' ∈ ("1+x" : String).data ∧ exprAlphabet 'x' = false) ∧
      ∃ m, evaluate "1+x" = Except.error m :=
  ⟨⟨by decide, by decide⟩, C2_rejects_non_arithmetic.1 "1+x" 'x' (by decide) (by decide)⟩

/-- Counterexample to C3: the two entry paths do not fail with the same
divide-by-zero error — the structured path raises `Cannot divide by zero`
while the expression path wraps the underlying `division by zero` in the
`Cannot evaluate expression` message. -/
theorem C3_counterexample :
    calculator (some 10) (some 0) (some "/") none = Except.error "Cannot divide by zero" ∧
      evaluate "10/0" =
        Except.error "Cannot evaluate expression: 10/0. Error: division by zero" ∧
      (Except.error "Cannot evaluate expression: 10/0. Error: division by zero" :
          Except String Rat) ≠
        Except.error "Cannot divide by zero" := by
  exact ⟨by decide, by decide, by decide⟩

/-- C3 as amended: both entry paths reject division by zero — the structured
path with `Cannot divide by zero` for any dividend, the expression path with
an `EvaluationError` wrapping the divide-by-zero message, raised for a
literal zero divisor and for a computed zero subexpression alike — but the
two error messages differ. -/
theorem C3_divide_by_zero_both_paths :
    (∀ a : Rat, calculator (some a) (some 0) (some "/") none =
        Except.error "Cannot divide by zero") ∧
      evaluate "10/0" =
        Except.error "Cannot evaluate expression: 10/0. Error: division by zero" ∧
      evaluate "10/(5-5)" =
        Except.error "Cannot evaluate expression: 10/(5-5). Error: division by zero" ∧
      "Cannot evaluate expression: 10/0. Error: division by zero" ≠
        "Cannot divide by zero" := by
  refine ⟨?_, by decide, by decide, by decide⟩
  intro a
  show calculatorStructured a 0 "/" = _
  simp only [calculatorStructured]
  rw [if_neg (by decide), if_neg (by decide), if_neg (by decide), if_pos (by decide)]
  simp

/-- C4: `MarkSixResult` construction succeeds exactly when all six
validation rules hold, and on failure the reported error is the first
failing rule in the listed order (refinement of `construct` against the
spec-side `firstFailingRule`); with the claim's concrete instances for
duplicates, bonus disjointness, range boundaries 0 and 50, and the
admissible boundary values 1 and 49. -/
theorem C4_construct_validates :
    (∀ (dn : Int) (d : PyDate) (nums : List Int) (b : Int),
        (∃ r, construct dn d nums b = Except.ok r) ↔
          0 < dn ∧ nums.length = 6 ∧ (∀ n ∈ nums, 1 ≤ n ∧ n ≤ 49) ∧ nums.Nodup ∧
            (1 ≤ b ∧ b ≤ 49) ∧ b ∉ nums) ∧
      (∀ (dn : Int) (d : PyDate) (nums : List Int) (b : Int) (e : MSError),
        construct dn d nums b = Except.error e → firstFailingRule dn nums b = some e) ∧
      construct 1 d0 [1, 2, 3, 4, 5, 5] 7 = Except.error MSError.numbersNotUnique ∧
      construct 1 d0 [1, 2, 3, 4, 5, 6] 6 = Except.error MSError.bonusInNumbers ∧
      construct 1 d0 [0, 2, 3, 4, 5, 6] 7 = Except.error MSError.numbersOutOfRange ∧
      construct 1 d0 [50, 2, 3, 4, 5, 6] 7 = Except.error MSError.numbersOutOfRange ∧
      (∃ r, construct 1 d0 [49, 2, 3, 4, 5, 1] 48 = Except.ok r) := by
  refine ⟨construct_succeeds_iff, construct_error_first, by decide, by decide, by decide,
    by decide, ⟨⟨1, d0, [1, 2, 3, 4, 5, 49], 48⟩, by decide⟩⟩

/-- Witness for C4 at the duplicate-numbers input. -/
theorem C4_witness :
    construct 1 d0 [1, 2, 3, 4, 5, 5] 7 = Except.error MSError.numbersNotUnique ∧
      firstFailingRule 1 [1, 2, 3, 4, 5, 5] 7 = some MSError.numbersNotUnique :=
  ⟨by decide, C4_construct_validates.2.1 1 d0 [1, 2, 3, 4, 5, 5] 7
    MSError.numbersNotUnique (by decide)⟩

/-- C5: on every successful construction the stored `numbers` field is the
ascending sort of the caller's input list (same multiset, input order
discarded), and the canonicalization is idempotent: constructing again from
the stored list succeeds with the very same instance. -/
theorem C5_numbers_canonical_sort :
    ∀ (dn : Int) (d : PyDate) (nums : List Int) (b : Int) (r : MarkSixResult),
      construct dn d nums b = Except.ok r →
        r.numbers.Sorted (· ≤ ·) ∧ List.Perm r.numbers nums ∧
          construct dn d r.numbers b = Except.ok r := by
  intro dn d nums b r hr
  obtain ⟨h1, h2, h3, h4, h5, h6, rfl⟩ := (construct_ok_iff dn d nums b r).mp hr
  have hperm : List.Perm (nums.insertionSort (· ≤ ·)) nums := List.perm_insertionSort _ nums
  have hsorted : (nums.insertionSort (· ≤ ·)).Sorted (· ≤ ·) :=
    List.sorted_insertionSort _ nums
  refine ⟨hsorted, hperm, ?_⟩
  apply (construct_ok_iff dn d (nums.insertionSort (· ≤ ·)) b _).mpr
  refine ⟨h1, by rw [List.length_insertionSort]; exact h2,
    fun n hn => h3 n (hperm.mem_iff.mp hn), hperm.nodup_iff.mpr h4, h5,
    fun hb => h6 (hperm.mem_iff.mp hb), ?_⟩
  rw [List.Sorted.insertionSort_eq hsorted]

/-- Witness for C5 at a concrete unsorted input. -/
theorem C5_witness :
    (⟨42, d0, [1, 2, 3, 4, 5, 6], 7⟩ : MarkSixResult).numbers.Sorted (· ≤ ·) ∧
      List.Perm (⟨42, d0, [1, 2, 3, 4, 5, 6], 7⟩ : MarkSixResult).numbers
        [6, 5, 4, 3, 2, 1] ∧
      construct 42 d0 (⟨42, d0, [1, 2, 3, 4, 5, 6], 7⟩ : MarkSixResult).numbers 7 =
        Except.ok ⟨42, d0, [1, 2, 3, 4, 5, 6], 7⟩ :=
  C5_numbers_canonical_sort 42 d0 [6, 5, 4, 3, 2, 1] 7
    ⟨42, d0, [1, 2, 3, 4, 5, 6], 7⟩ (by decide)

/-- Counterexample to C6: the unsupported-operator error names the
normalized (lower-cased, trimmed) operator string, not the literal
offending string — `POWER` is reported as `power`. -/
theorem C6_counterexample :
    calculator (some 5) (some 3) (some "POWER") none =
        Except.error "Unsupported operation: power" ∧
      "Unsupported operation: power" ≠ "Unsupported operation: POWER" := by
  exact ⟨by decide, by decide⟩

/-- C6 as amended: the structured operator is normalized by lower-casing
and trimming and matched against the fixed synonym table, so
`calculate(Operands(5,3,"ADD")) = 8` and `calculate(Operands(5,3,"×")) = 15`;
every operator whose normalized form matches no table entry raises the
unsupported-operation error naming the normalized operator string. -/
theorem C6_operator_table :
    calculator (some 5) (some 3) (some "ADD") none = Except.ok 8 ∧
      calculator (some 5) (some 3) (some "×") none = Except.ok 15 ∧
      (∀ (a b : Rat) (op : String),
        normOp op ∉ (["add", "+", "subtract", "-", "multiply", "*", "×", "x",
          "divide", "/", "÷"] : List String) →
        calculatorStructured a b op =
          Except.error ("Unsupported operation: " ++ normOp op)) := by
  refine ⟨by decide, by decide, ?_⟩
  intro a b op h
  simp only [List.mem_cons, List.not_mem_nil, or_false, not_or] at h
  simp only [calculatorStructured]
  rw [if_neg (by tauto), if_neg (by tauto), if_neg (by tauto), if_neg (by tauto)]

/-- Witness for C6 at the unsupported operator `power`. -/
theorem C6_witness :
    (normOp "power" ∉ (["add", "+", "subtract", "-", "multiply", "*", "×", "x",
        "divide", "/", "÷"] : List String)) ∧
      calculatorStructured 5 3 "power" =
        Except.error ("Unsupported operation: " ++ normOp "power") :=
  ⟨by decide, C6_operator_table.2.2 5 3 "power" (by decide)⟩

/-- Counterexample to C7: a calculator call with the empty expression never
reaches expression-mode evaluation — it raises the missing-arguments error
instead of an `EvaluationError` carrying the text and the parser message
(which is what the expression path would produce for the empty text). -/
theorem C7_counterexample :
    calculator none none none (some "") = Except.error missingArgsMsg ∧
      evaluate "" = Except.error "Cannot evaluate expression: . Error: invalid syntax" ∧
      missingArgsMsg ≠ "Cannot evaluate expression: . Error: invalid syntax" := by
  exact ⟨by decide, by decide, by decide⟩

/-- C7 as amended: for every nonempty expression on which the underlying
parser fails, the calculator fails with the `EvaluationError` message built
from the (glyph-normalized) expression text and the underlying parser
message; concrete instances for unbalanced parentheses and unsupported
tokens; the empty expression instead falls through to the
missing-arguments error. -/
theorem C7_malformed_expression_errors :
    (∀ (s m : String), s ≠ "" →
        simple_eval (pyStrip (pyReplace s.data)) = Except.error m →
        ∀ (n1 n2 : Option Rat) (op : Option String),
          calculator n1 n2 op (some s) =
            Except.error ("Cannot evaluate expression: " ++ String.mk (pyReplace s.data) ++
              ". Error: " ++ m)) ∧
      evaluate "(1+2" = Except.error "Cannot evaluate expression: (1+2. Error: invalid syntax" ∧
      evaluate ")" = Except.error "Cannot evaluate expression: ). Error: invalid syntax" ∧
      evaluate "not math" =
        Except.error "Cannot evaluate expression: not math. Error: invalid syntax" ∧
      calculator none none none (some "") = Except.error missingArgsMsg := by
  refine ⟨?_, by decide, by decide, by decide, by decide⟩
  intro s m hne hse n1 n2 op
  show (if s = "" then calculatorOperands n1 n2 op else evaluate s) = _
  rw [if_neg hne]
  show (match simple_eval (pyStrip (pyReplace s.data)) with
    | Except.ok v => Except.ok v
    | Except.error m2 =>
      Except.error ("Cannot evaluate expression: " ++ String.mk (pyReplace s.data) ++
        ". Error: " ++ m2)) = _
  rw [hse]

/-- Witness for C7 at the unbalanced input `(1+2`. -/
theorem C7_witness :
    (("(1+2" : String) ≠ "" ∧
        simple_eval (pyStrip (pyReplace ("(1+2" : String).data)) =
          Except.error "invalid syntax") ∧
      calculator none none none (some "(1+2") =
        Except.error ("Cannot evaluate expression: " ++
          String.mk (pyReplace ("(1+2" : String).data) ++ ". Error: " ++ "invalid syntax") :=
  ⟨⟨by decide, by decide⟩, C7_malformed_expression_errors.1 "(1+2" "invalid syntax"
    (by decide) (by decide) none none none⟩

/-- C8: a calculator call populating neither variant raises the
missing-arguments error and returns no numeric result. -/
theorem C8_missing_arguments :
    calculator none none none none = Except.error missingArgsMsg := by decide

/-- Counterexample to C9: instances are not immutable after construction —
pydantic attribute assignment (no `frozen` configuration in `models.py`)
changes the `draw_number` field of a successfully constructed instance. -/
theorem C9_counterexample :
    construct 42 d0 [1, 2, 3, 4, 5, 6] 7 =
        Except.ok ⟨42, d0, [1, 2, 3, 4, 5, 6], 7⟩ ∧
      set_draw_number ⟨42, d0, [1, 2, 3, 4, 5, 6], 7⟩ 0 ≠
        (⟨42, d0, [1, 2, 3, 4, 5, 6], 7⟩ : MarkSixResult) ∧
      (set_draw_number ⟨42, d0, [1, 2, 3, 4, 5, 6], 7⟩ 0).draw_number = 0 := by
  exact ⟨by decide, by decide, by decide⟩

/-- C9 as amended: every `MarkSixResult` is validated at construction and a
failed validation yields only an error, never an instance (no partially
valid state is observable); but instances are not frozen — attribute
assignment after construction replaces the assigned field (running no
validation) while leaving the others unchanged. -/
theorem C9_validated_at_construction_not_frozen :
    (∀ (dn : Int) (d : PyDate) (nums : List Int) (b : Int),
        (∃ e, construct dn d nums b = Except.error e) ↔
          ¬ (0 < dn ∧ nums.length = 6 ∧ (∀ n ∈ nums, 1 ≤ n ∧ n ≤ 49) ∧ nums.Nodup ∧
            (1 ≤ b ∧ b ≤ 49) ∧ b ∉ nums)) ∧
      (∀ (r : MarkSixResult) (v : Int),
        (set_draw_number r v).draw_number = v ∧
          (set_draw_number r v).draw_date = r.draw_date ∧
          (set_draw_number r v).numbers = r.numbers ∧
          (set_draw_number r v).bonus_number = r.bonus_number) := by
  constructor
  · intro dn d nums b
    constructor
    · rintro ⟨e, he⟩ hr
      obtain ⟨r, hrr⟩ := (construct_succeeds_iff dn d nums b).mpr hr
      rw [he] at hrr
      exact Except.noConfusion hrr
    · intro hn
      cases hc : construct dn d nums b with
      | ok r => exact absurd ((construct_succeeds_iff dn d nums b).mp ⟨r, hc⟩) hn
      | error e => exact ⟨e, rfl⟩
  · intro r v
    exact ⟨rfl, rfl, rfl, rfl⟩

/-- C10: an empty expression string is treated exactly as an absent
expression — the call falls through to the structured path, so a valid
triple still computes, and with the expression absent or empty the
missing-arguments error is raised whenever any one of the three structured
arguments is `None`. -/
theorem C10_empty_expression_falls_through :
    calculator (some 5) (some 3) (some "+") (some "") = Except.ok 8 ∧
      (∀ (n1 n2 : Option Rat) (op : Option String),
        n1 = none ∨ n2 = none ∨ op = none →
          calculator n1 n2 op none = Except.error missingArgsMsg ∧
            calculator n1 n2 op (some "") = Except.error missingArgsMsg) := by
  refine ⟨by decide, ?_⟩
  intro n1 n2 op h
  have hop : calculatorOperands n1 n2 op = Except.error missingArgsMsg := by
    rcases h with rfl | rfl | rfl
    · cases n2 <;> cases op <;> rfl
    · cases n1 <;> cases op <;> rfl
    · cases n1 <;> cases n2 <;> rfl
  constructor
  · exact hop
  · show (if ("" : String) = "" then calculatorOperands n1 n2 op else evaluate "") = _
    rw [if_pos rfl]
    exact hop

/-- Witness for C10 with only `number1` missing. -/
theorem C10_witness :
    ((none : Option Rat) = none ∨ (some (3 : Rat)) = none ∨ (some "+") = none) ∧
      calculator none (some 3) (some "+") none = Except.error missingArgsMsg ∧
      calculator none (some 3) (some "+") (some "") = Except.error missingArgsMsg :=
  ⟨Or.inl rfl,
    (C10_empty_expression_falls_through.2 none (some 3) (some "+") (Or.inl rfl)).1,
    (C10_empty_expression_falls_through.2 none (some 3) (some "+") (Or.inl rfl)).2⟩

end MarkSix
